import Mathlib

/-!
Verification development for the Overlord-rust agent-simulation core.

The Rust source keeps its shared state in `HashMap`s (the reservation
ledger in `src/units/tasks.rs`, inventories in `src/items.rs`, the
structure index in `src/map.rs`).  Here each `HashMap` is embedded as an
association list together with a well-formedness predicate stating that
its keys are duplicate-free; the operations below mirror the source's
`get` / `entry(..).or_insert(..)` / in-place mutation / `remove` calls
entry by entry.  Machine integers (`u32`) are embedded as `Nat`: none of
the verified code paths can overflow a `u32` other than by saturating
operations, which the source spells `saturating_sub` and which is `Nat`
subtraction here.
-/

namespace Overlord

/-- Association-list lookup, first binding wins (models `HashMap::get`). -/
def alGet {κ ν : Type} [DecidableEq κ] : List (κ × ν) → κ → Option ν
  | [], _ => none
  | (k', v) :: rest, k => if k' = k then some v else alGet rest k

/-- Models `map.entry(k).or_insert(d)` followed by applying the in-place
update `f` to the entry: the first binding of `k` is updated with `f`,
and if `k` is absent a binding `(k, f d)` is appended. -/
def alUpsert {κ ν : Type} [DecidableEq κ] (f : ν → ν) (d : ν) : List (κ × ν) → κ → List (κ × ν)
  | [], k => [(k, f d)]
  | (k', v) :: rest, k => if k' = k then (k', f v) :: rest else (k', v) :: alUpsert f d rest k

/-- Replace the value of the first binding of `k` (models writing through
`HashMap::get_mut`); no-op when `k` is absent. -/
def alSet {κ ν : Type} [DecidableEq κ] : List (κ × ν) → κ → ν → List (κ × ν)
  | [], _, _ => []
  | (k', v) :: rest, k, w => if k' = k then (k', w) :: rest else (k', v) :: alSet rest k w

/-- Remove the first binding of `k` (models `HashMap::remove`). -/
def alRemove {κ ν : Type} [DecidableEq κ] : List (κ × ν) → κ → List (κ × ν)
  | [], _ => []
  | (k', v) :: rest, k => if k' = k then rest else (k', v) :: alRemove rest k

/-- `ItemKind` from `src/items.rs` (the stackable item kinds; the source
has the single variant `Rock`). -/
inductive ItemKind where
  | Rock
deriving DecidableEq, Repr

/-- Bevy `Entity` handles are opaque identifiers; embedded as `Nat`. -/
abbrev Entity := Nat

/-- `Inventory` from `src/items.rs` (the `stackable_items` map; the
`unique_items` side is untouched by all code under verification). -/
structure Inventory where
  stackable_items : List (ItemKind × Nat)
deriving DecidableEq, Repr

/-- `Inventory::count` from `src/items.rs`. -/
def Inventory.count (inv : Inventory) (kind : ItemKind) : Nat :=
  (alGet inv.stackable_items kind).getD 0

/-- `Inventory::add` from `src/items.rs`:
`*self.stackable_items.entry(kind).or_insert(0) += quantity`. -/
def Inventory.add (inv : Inventory) (kind : ItemKind) (quantity : Nat) : Inventory :=
  ⟨alUpsert (· + quantity) 0 inv.stackable_items kind⟩

/-- `Inventory::remove` from `src/items.rs`: removes up to `quantity`,
returning `true` only when the stack held at least that much, in which
case it subtracts (erasing the entry when it reaches zero); otherwise it
returns `false` and changes nothing. -/
def Inventory.remove (inv : Inventory) (kind : ItemKind) (quantity : Nat) : Bool × Inventory :=
  match alGet inv.stackable_items kind with
  | some cur =>
      if quantity ≤ cur then
        (true, ⟨if cur - quantity = 0 then alRemove inv.stackable_items kind
                else alSet inv.stackable_items kind (cur - quantity)⟩)
      else (false, inv)
  | none => (false, inv)

/-- The `Reservations` resource from `src/units/tasks.rs`:
`chest -> owner -> kind -> qty` as three nested maps. -/
structure Reservations where
  reserved : List (Entity × List (Entity × List (ItemKind × Nat)))
deriving DecidableEq, Repr

/-- `Reservations::total_reserved` from `src/units/tasks.rs`: sum over
all owners recorded for `chest` of their quantity for `kind`. -/
def Reservations.total_reserved (r : Reservations) (chest : Entity) (kind : ItemKind) : Nat :=
  match alGet r.reserved chest with
  | some owner_map => (owner_map.map (fun p => (alGet p.2 kind).getD 0)).sum
  | none => 0

/-- `Reservations::owner_reserved` from `src/units/tasks.rs`. -/
def Reservations.owner_reserved (r : Reservations) (owner chest : Entity) (kind : ItemKind) :
    Nat :=
  ((((alGet r.reserved chest).bind fun owners => alGet owners owner).bind
    fun kmap => alGet kmap kind)).getD 0

/-- The ledger mutation performed by a successful `try_reserve` (the
`entry(..).or_insert_with(..)` chain ending in `+= qty`), factored out of
`Reservations.try_reserve` so it can be reasoned about on its own. -/
def Reservations.reserveInsert (r : Reservations) (owner chest : Entity) (kind : ItemKind)
    (qty : Nat) : Reservations :=
  ⟨alUpsert
      (fun owner_map =>
        alUpsert (fun kind_map => alUpsert (· + qty) 0 kind_map kind) [] owner_map owner)
      [] r.reserved chest⟩

/-- `Reservations::try_reserve` from `src/units/tasks.rs`: computes
`free = chest_inv.count(kind).saturating_sub(total_reserved)`; if
`free < qty` it returns `false` leaving the ledger untouched, otherwise
it adds `qty` to the `(chest, owner, kind)` slot (creating the nested
entries as needed) and returns `true`. -/
def Reservations.try_reserve (r : Reservations) (owner chest : Entity) (kind : ItemKind)
    (qty : Nat) (chest_inv : Inventory) : Bool × Reservations :=
  let total_reserved := r.total_reserved chest kind
  let chest_available := chest_inv.count kind
  let free := chest_available - total_reserved
  if free < qty then (false, r)
  else (true, r.reserveInsert owner chest kind qty)

/-- The innermost level of `Reservations::release` from
`src/units/tasks.rs`: `*v = v.saturating_sub(qty)` on the `kind` slot,
removing the entry when it reaches zero; no-op when `kind` is absent. -/
def kindRelease (kind_map : List (ItemKind × Nat)) (kind : ItemKind) (qty : Nat) :
    List (ItemKind × Nat) :=
  match alGet kind_map kind with
  | none => kind_map
  | some v =>
      if v - qty = 0 then alRemove kind_map kind
      else alSet kind_map kind (v - qty)

/-- The middle level of `Reservations::release`: update the owner's kind
map via `kindRelease` and remove the owner if its map became empty;
no-op when `owner` is absent. -/
def ownerRelease (owner_map : List (Entity × List (ItemKind × Nat))) (owner : Entity)
    (kind : ItemKind) (qty : Nat) : List (Entity × List (ItemKind × Nat)) :=
  match alGet owner_map owner with
  | none => owner_map
  | some kind_map =>
      let kind_map' := kindRelease kind_map kind qty
      if kind_map' = [] then alRemove owner_map owner
      else alSet owner_map owner kind_map'

/-- `Reservations::release` from `src/units/tasks.rs`: saturating-subtract
`qty` from the `(chest, owner, kind)` slot, pruning entries that become
empty at each of the three levels, exactly as the source does (the three
nested `if let Some(..) = ..get_mut(..)` blocks are the function itself
and the two helper functions above). -/
def Reservations.release (r : Reservations) (owner chest : Entity) (kind : ItemKind)
    (qty : Nat) : Reservations :=
  match alGet r.reserved chest with
  | none => r
  | some owner_map =>
      let owner_map' := ownerRelease owner_map owner kind qty
      if owner_map' = [] then ⟨alRemove r.reserved chest⟩
      else ⟨alSet r.reserved chest owner_map'⟩

/-- `Reservations::release_all_for_owner` from `src/units/tasks.rs`:
drop the owner's entry from every chest map, then drop chest maps that
became empty. -/
def Reservations.release_all_for_owner (r : Reservations) (owner : Entity) : Reservations :=
  ⟨(r.reserved.map (fun p => (p.1, alRemove p.2 owner))).filter (fun p => !p.2.isEmpty)⟩

/-- The owners recorded for `chest` in the ledger (the key set the
source's `total_reserved` iterates over). -/
def Reservations.ownersAt (r : Reservations) (chest : Entity) : List Entity :=
  ((alGet r.reserved chest).getD []).map Prod.fst

/-- The claim C1 scenario harness: fold a sequence of `try_reserve`
calls (each by some `owner` for some `qty`) on a fixed `chest`, `kind`
and chest inventory, with no intervening release, returning the final
ledger together with the sum of the quantities of the calls that
succeeded. -/
def run_reserves (c : Entity) (k : ItemKind) (inv : Inventory) :
    Reservations → List (Entity × Nat) → Reservations × Nat
  | s, [] => (s, 0)
  | s, (o, q) :: rest =>
      let step := s.try_reserve o c k q inv
      let tail := run_reserves c k inv step.2 rest
      (tail.1, (if step.1 then q else 0) + tail.2)

/-- Well-formedness of the embedded ledger: duplicate-free keys at the
chest level, at each owner level and at each kind level (automatic for
Rust `HashMap`s). -/
def ReservationsWF (r : Reservations) : Prop :=
  (r.reserved.map Prod.fst).Nodup
    ∧ (∀ p ∈ r.reserved, (p.2.map Prod.fst).Nodup)
    ∧ (∀ p ∈ r.reserved, ∀ q ∈ p.2, (q.2.map Prod.fst).Nodup)

/-- Ledger states reachable from the empty ledger by any sequence of
`try_reserve`, `release` and `release_all_for_owner` calls. -/
inductive ReservationsReachable : Reservations → Prop where
  | empty : ReservationsReachable ⟨[]⟩
  | reserve (s : Reservations) (o c : Entity) (k : ItemKind) (q : Nat) (inv : Inventory) :
      ReservationsReachable s → ReservationsReachable (s.try_reserve o c k q inv).2
  | release (s : Reservations) (o c : Entity) (k : ItemKind) (q : Nat) :
      ReservationsReachable s → ReservationsReachable (s.release o c k q)
  | releaseAll (s : Reservations) (o : Entity) :
      ReservationsReachable s → ReservationsReachable (s.release_all_for_owner o)

/--
Geometry layer.  Bevy's `Vec2` is a pair of `f32`; it is embedded here
with `ℚ` coordinates.  Every coordinate handled by the verified code is
produced from small integer tile indices by multiplication by the tile
size `32.0`, halving, and addition, all of which are exact in `f32` in
the ranges involved, so `ℚ` is a faithful carrier for them.  Euclidean
*distance comparisons* (`Vec2::distance(..) <= t` and `<`) are embedded
by comparing squared distances, which is equivalent over the
nonnegative reals and avoids the irrational square root.
-/
structure Vec2 where
  x : ℚ
  y : ℚ
deriving DecidableEq, Repr

/-- Integer tile coordinate (Bevy `IVec2` used as a grid position). -/
abbrev GridPos := Int × Int

/-- Squared Euclidean distance between two points: the embedding of
`Vec2::distance` for use in comparisons (see `Vec2`). -/
def distSq (a b : Vec2) : ℚ :=
  (a.x - b.x) ^ 2 + (a.y - b.y) ^ 2

/-- `TILE_SIZE` from `src/map.rs` (32.0 × 32.0 pixels per tile). -/
def TILE_SIZE : ℚ := 32

/-- `world_pos_to_tile` from `src/map.rs`. -/
def world_pos_to_tile (world_pos : Vec2) : Vec2 :=
  ⟨world_pos.x / TILE_SIZE, world_pos.y / TILE_SIZE⟩

/-- `tile_pos_to_rounded_tile` from `src/map.rs`: coordinate-wise floor. -/
def tile_pos_to_rounded_tile (tile_pos : Vec2) : GridPos :=
  (Int.floor tile_pos.x, Int.floor tile_pos.y)

/-- `rounded_tile_pos_to_world` from `src/map.rs`. -/
def rounded_tile_pos_to_world (rounded_tile_pos : GridPos) : Vec2 :=
  ⟨(rounded_tile_pos.1 : ℚ) * TILE_SIZE + (1 / 2) * TILE_SIZE,
   (rounded_tile_pos.2 : ℚ) * TILE_SIZE + (1 / 2) * TILE_SIZE⟩

/-- `grid_to_tile_pos` from `src/pathfinding.rs`: centre of a tile. -/
def grid_to_tile_pos (grid_pos : GridPos) : Vec2 :=
  ⟨(grid_pos.1 : ℚ) + 1 / 2, (grid_pos.2 : ℚ) + 1 / 2⟩

/-- The `StructureManager` resource from `src/map.rs`: the spatial index
`rounded_tile_pos -> structure entity`. -/
structure StructureManager where
  structures : List (GridPos × Entity)
deriving DecidableEq, Repr

/-- `is_tile_passable` from `src/map.rs`: a tile is passable exactly when
the structure index has no entry for it (missing chunks count as open). -/
def is_tile_passable (rounded_tile_pos : GridPos) (structure_manager : StructureManager) :
    Bool :=
  match alGet structure_manager.structures rounded_tile_pos with
  | some _ => false
  | none => true

/-- The `Action` enum from `src/units/tasks.rs`.  `CraftRecipeId` is an
opaque identifier embedded as `Nat`. -/
inductive Action where
  | MoveTo (target : Vec2)
  | Craft (recipe : Nat) (quantity : Nat) (withEnt : Entity)
  | Take (kind : ItemKind) (quantity : Nat) (fromEnt : Entity)
  | Drop (kind : ItemKind) (quantity : Nat) (toEnt : Entity)
deriving DecidableEq, Repr

/-- The `TaskStatus` enum from `src/units/tasks.rs`. -/
inductive TaskStatus where
  | Pending
  | Planned
  | InProgress
  | Completed
  | Failed
deriving DecidableEq, Repr

/-- `BONUS_RANGE` from `src/units/tasks.rs` (`0.8`; the nearest `f32` to
`0.8` differs from `4/5` by under `2^-24`, which can only matter for
distances within that sliver of the threshold — no claim under
verification exercises such a tie). -/
def BONUS_RANGE : ℚ := 4 / 5

/-- `UNIT_REACH` from `src/units/units.rs` (`1`, used as a distance in
tiles). -/
def UNIT_REACH : ℚ := 1

/-- A provider chest row as seen by the planner and executor queries of
`src/units/tasks.rs`: entity id, `GlobalTransform` translation (world
pixels) and inventory. -/
structure ProviderChest where
  ent : Entity
  world : Vec2
  inv : Inventory
deriving DecidableEq, Repr

/-- `find_best_chest` from `src/units/tasks.rs`: fold over the provider
chests keeping the nearest chest with enough unreserved stock
(`best_with_enough`) and the nearest with any unreserved stock
(`best_any`); distances are compared squared (see `Vec2`). -/
def find_best_chest (unit_tile_pos : Vec2) (desired_quantity : Nat)
    (desired_item_kind : ItemKind) (chests : List ProviderChest)
    (reservations : Reservations) : Option (Entity × Vec2 × Nat) :=
  let step := fun (best : Option (Entity × Vec2 × Nat × ℚ) × Option (Entity × Vec2 × Nat × ℚ))
      (chest : ProviderChest) =>
    let chest_tile := world_pos_to_tile chest.world
    let dist := distSq unit_tile_pos chest_tile
    let real_quantity := chest.inv.count desired_item_kind
    let already_reserved := reservations.total_reserved chest.ent desired_item_kind
    let available := real_quantity - already_reserved
    if available = 0 then best
    else if desired_quantity ≤ available then
      match best.1 with
      | none => (some (chest.ent, chest_tile, available, dist), best.2)
      | some (_, _, _, best_dist) =>
          if dist < best_dist then (some (chest.ent, chest_tile, available, dist), best.2)
          else best
    else
      match best.2 with
      | none => (best.1, some (chest.ent, chest_tile, available, dist))
      | some (_, _, _, best_dist) =>
          if dist < best_dist then (best.1, some (chest.ent, chest_tile, available, dist))
          else best
  match chests.foldl step (none, none) with
  | (some (e, pos, qty, _), _) => some (e, pos, qty)
  | (none, some (e, pos, qty, _)) => some (e, pos, qty)
  | (none, none) => none

/-- Result of one planner step for one unit (the fields of the ECS state
that the `GetItems` arm of `actions_decompose_planner` may write). -/
structure PlanResult where
  status : TaskStatus
  action_queue : List Action
  reservations : Reservations
deriving DecidableEq, Repr

/-- The `TaskKind::GetItems` arm of `actions_decompose_planner` from
`src/units/tasks.rs`, for one unit with a `Pending` task: complete
immediately when the unit already holds enough, otherwise pick a chest
via `find_best_chest`, look it up again in the provider query, reserve
`min(needed, available)` and on success enqueue `MoveTo` then `Take`
and mark `Planned`; on reservation failure mark `Failed` and release
all claims of this unit. -/
def actions_decompose_get_items (unit_ent : Entity) (unit_world : Vec2)
    (unit_inv : Inventory) (action_queue : List Action) (kind : ItemKind)
    (quantity : Nat) (providers : List ProviderChest) (reservations : Reservations) :
    PlanResult :=
  let have_qty := unit_inv.count kind
  if quantity ≤ have_qty then ⟨TaskStatus.Completed, action_queue, reservations⟩
  else
    let needed := quantity - have_qty
    let unit_tile_pos := world_pos_to_tile unit_world
    match find_best_chest unit_tile_pos needed kind providers reservations with
    | some (chest_ent, chest_tile_pos, available) =>
        let take_qty := min needed available
        match providers.find? (fun p => p.ent == chest_ent) with
        | some chest =>
            let res := reservations.try_reserve unit_ent chest_ent kind take_qty chest.inv
            if res.1 then
              ⟨TaskStatus.Planned,
               action_queue ++ [Action.MoveTo chest_tile_pos,
                 Action.Take kind take_qty chest_ent],
               res.2⟩
            else ⟨TaskStatus.Failed, action_queue, res.2.release_all_for_owner unit_ent⟩
        | none => ⟨TaskStatus.Failed, action_queue, reservations⟩
    | none => ⟨TaskStatus.Failed, action_queue, reservations⟩

/-- Result of processing a current `MoveTo` action (the fields of
`CurrentAction` and `PathfindingAgent` that the arm may write). -/
structure MoveToStep where
  action : Option Action
  target : Option Vec2
  path : List Vec2
deriving DecidableEq, Repr

/-- The `Action::MoveTo` arm of `process_current_action` from
`src/units/tasks.rs`: the action resolves (action cleared, agent target
and path reset) exactly when the agent path queue is empty and the
unit's tile position is within `BONUS_RANGE + UNIT_REACH` of the
target (distance compared squared, see `Vec2`). -/
def process_move_to (unit_world : Vec2) (target_pos : Vec2) (agent_target : Option Vec2)
    (agent_path : List Vec2) : MoveToStep :=
  let current_unit_tile_pos := world_pos_to_tile unit_world
  if agent_path = []
      ∧ distSq current_unit_tile_pos target_pos ≤ (BONUS_RANGE + UNIT_REACH) ^ 2 then
    ⟨none, none, []⟩
  else ⟨some (Action.MoveTo target_pos), agent_target, agent_path⟩

/-- Result of processing a current `Take` action (the fields the arm may
write: current action, unit inventory, provider inventories, ledger). -/
structure TakeStep where
  action : Option Action
  unit_inv : Inventory
  providers : List ProviderChest
  reservations : Reservations
deriving DecidableEq, Repr

/-- Write back an updated provider chest row (the effect of mutating
through `provider_chest_query.get_mut`). -/
def setProvider (providers : List ProviderChest) (e : Entity) (c : ProviderChest) :
    List ProviderChest :=
  providers.map (fun p => if p.ent == e then c else p)

/-- The `Action::Take` arm of `process_current_action` from
`src/units/tasks.rs`: cancel when the chest is missing or out of reach;
with zero stock release the owner's whole outstanding reservation for
that chest and kind; otherwise transfer `min(quantity, available)`,
then release `min(reserved_by_owner, taken)`; in every case the current
action is cleared.  Distances are compared squared (see `Vec2`). -/
def process_take (unit_ent : Entity) (unit_world : Vec2) (unit_inv : Inventory)
    (kind : ItemKind) (quantity : Nat) (fromEnt : Entity)
    (providers : List ProviderChest) (reservations : Reservations) : TakeStep :=
  match providers.find? (fun p => p.ent == fromEnt) with
  | some chest =>
      let current_target_tile_pos := world_pos_to_tile chest.world
      let current_unit_tile_pos := world_pos_to_tile unit_world
      if (BONUS_RANGE + UNIT_REACH) ^ 2
          < distSq current_target_tile_pos current_unit_tile_pos then
        ⟨none, unit_inv, providers, reservations⟩
      else
        let available_quantity := chest.inv.count kind
        let quantity_to_take := min quantity available_quantity
        if quantity_to_take = 0 then
          let reserved_by_owner := reservations.owner_reserved unit_ent fromEnt kind
          let reservations' :=
            if 0 < reserved_by_owner then
              reservations.release unit_ent fromEnt kind reserved_by_owner
            else reservations
          ⟨none, unit_inv, providers, reservations'⟩
        else
          let provider_inv' := (chest.inv.remove kind quantity_to_take).2
          let unit_inv' := unit_inv.add kind quantity_to_take
          let reserved_by_owner := reservations.owner_reserved unit_ent fromEnt kind
          let reservations' :=
            if 0 < reserved_by_owner then
              reservations.release unit_ent fromEnt kind
                (min reserved_by_owner quantity_to_take)
            else reservations
          ⟨none, unit_inv',
           setProvider providers fromEnt ⟨chest.ent, chest.world, provider_inv'⟩,
           reservations'⟩
  | none => ⟨none, unit_inv, providers, reservations⟩

/-- The `PathfindingAgent` component from `src/pathfinding.rs`. -/
structure PathfindingAgent where
  target : Option Vec2
  path : List Vec2
  path_tolerance : ℚ
deriving DecidableEq, Repr

/-- The per-agent state read and written by `movement_system` from
`src/pathfinding.rs`: the agent, the `Transform` translation (world
pixels) and whether `CurrentTask.task` is set. -/
structure MovementState where
  agent : PathfindingAgent
  translation : Vec2
  has_task : Bool
deriving DecidableEq, Repr

/-- One tick of `movement_system` from `src/pathfinding.rs` for one
agent.  `normalize_or_zero` (an `f32` unit vector, irrational in
general) is taken as a parameter: every statement proved below holds
for all values of this parameter, in particular the true normalized
direction.  Waypoint-arrival (`distance <= path_tolerance`) is compared
squared (see `Vec2`); sprite rotation is pure rendering and is not
modelled. -/
def movement_system_step (normalize_or_zero : Vec2 → Vec2) (movement_speed : ℚ)
    (delta_secs : ℚ) (s : MovementState) : MovementState :=
  match s.agent.path with
  | [] => s
  | next_waypoint :: rest =>
      let current_tile_pos := world_pos_to_tile s.translation
      if distSq current_tile_pos next_waypoint ≤ s.agent.path_tolerance ^ 2 then
        if rest = [] then
          ⟨⟨none, [], s.agent.path_tolerance⟩, s.translation, false⟩
        else
          ⟨⟨s.agent.target, rest, s.agent.path_tolerance⟩, s.translation, s.has_task⟩
      else
        let direction :=
          normalize_or_zero ⟨next_waypoint.x - current_tile_pos.x,
            next_waypoint.y - current_tile_pos.y⟩
        let movement_tiles : Vec2 :=
          ⟨direction.x * movement_speed * delta_secs,
           direction.y * movement_speed * delta_secs⟩
        let movement_pixels : Vec2 :=
          ⟨movement_tiles.x * TILE_SIZE, movement_tiles.y * TILE_SIZE⟩
        ⟨s.agent,
         ⟨s.translation.x + movement_pixels.x, s.translation.y + movement_pixels.y⟩,
         s.has_task⟩

/-- `is_diagonal` from `src/pathfinding.rs`. -/
def is_diagonal (f t : GridPos) : Bool :=
  (f.1 - t.1).natAbs = 1 && (f.2 - t.2).natAbs = 1

/-- `get_neighbors` from `src/map.rs`, in the source's iteration order
(`x` from -1 to 1, then `y`, skipping the origin). -/
def get_neighbors (pos : GridPos) : List GridPos :=
  ([(-1, -1), (-1, 0), (-1, 1), (0, -1), (0, 1), (1, -1), (1, 0), (1, 1)] :
      List (Int × Int)).map
    (fun d => (pos.1 + d.1, pos.2 + d.2))

/-- The squared Euclidean distance between grid positions, as a natural
number.  The source's `heuristic` is the `f32` square root of this;
every use of heuristic values in the verified statements is a
comparison, embedded as the equivalent comparison of the squares. -/
def heuristic_sq (a b : GridPos) : Nat :=
  ((a.1 - b.1) * (a.1 - b.1) + (a.2 - b.2) * (a.2 - b.2)).toNat

/-- `PathNode` from `src/pathfinding.rs`.  `g_cost` is kept in exact
fixed-point units of 1/1000: the source's step costs `1.0` and `1.414`
become `1000` and `1414` (the source accumulates them in `f32`, whose
rounding could disagree with the exact sums only at ties within the
floating-point error; no property proved here depends on such a tie).
`h_sq` is the squared heuristic (see `heuristic_sq`). -/
structure PathNode where
  pos : GridPos
  g_cost : Nat
  h_sq : Nat
  parent : Option GridPos
deriving DecidableEq, Repr

/-- Structurally recursive integer square root: starting from `acc`,
step to `acc + 1` while `(acc + 1)^2` still fits under `n`, with `fuel`
bounding the walk.  `isqrt_go_spec` and `isqrt_eq_sqrt` below prove
that `isqrt` computes exactly `Nat.sqrt`. -/
def isqrt_go (n : Nat) : Nat → Nat → Nat
  | 0, acc => acc
  | fuel + 1, acc =>
      if (acc + 1) * (acc + 1) ≤ n then isqrt_go n fuel (acc + 1) else acc

/-- The integer square root `⌊√n⌋` (equal to `Nat.sqrt n` by
`isqrt_eq_sqrt`). -/
def isqrt (n : Nat) : Nat := isqrt_go n n 0

/-- Exact round-to-nearest of `sqrt n` over the naturals, embedding the
source's `heuristic(start, goal).round()`: `f32` square roots are
correctly rounded, and `round` of the real square root differs from
`round` of the `f32` one only when `sqrt n` sits within one `f32`
rounding error of a half-integer, which no claim here exercises.
`round(sqrt n) = isqrt n + 1` exactly when `sqrt n ≥ isqrt n + 1/2`,
i.e. when `n ≥ (isqrt n + 1/2)^2 = isqrt n * (isqrt n + 1) + 1/4`,
i.e. (over the integers) when `n ≥ isqrt n * (isqrt n + 1) + 1`. -/
def round_sqrt (n : Nat) : Nat :=
  let r := isqrt n
  if n < r * r + r + 1 then r else r + 1

/-- `BASE_LIMIT` from `find_path` in `src/pathfinding.rs`. -/
def BASE_LIMIT : Nat := 500

/-- `PER_TILE_LIMIT` from `find_path` in `src/pathfinding.rs`. -/
def PER_TILE_LIMIT : Nat := 40

/-- `MAX_LIMIT` from `find_path` in `src/pathfinding.rs`. -/
def MAX_LIMIT : Nat := 20000

/-- The expansion budget computed by `find_path`:
`BASE_LIMIT + round(heuristic(start, actual_end)) * PER_TILE_LIMIT`,
capped at `MAX_LIMIT` (the `.max(0)` on the rounded distance is a no-op
for a nonnegative distance and is absorbed by `Nat`). -/
def max_expansions (start_grid actual_end_grid : GridPos) : Nat :=
  min (BASE_LIMIT + round_sqrt (heuristic_sq start_grid actual_end_grid) * PER_TILE_LIMIT)
    MAX_LIMIT

/-- The direction priority list built by `find_nearest_passable_tile`
(`src/pathfinding.rs`): opposite of the approach first, then the
orthogonal directions perpendicular to each nonzero approach component,
then the four diagonals, then the approach itself. -/
def nearest_directions (approach_dir : GridPos) : List GridPos :=
  (if approach_dir.1 ≠ 0 ∨ approach_dir.2 ≠ 0 then
      [((-approach_dir.1, -approach_dir.2) : GridPos)]
    else [])
  ++ (if approach_dir.1 ≠ 0 then [((0, 1) : GridPos), (0, -1)] else [])
  ++ (if approach_dir.2 ≠ 0 then [((1, 0) : GridPos), (-1, 0)] else [])
  ++ [(-1, -1), (1, -1), (-1, 1), (1, 1)]
  ++ (if approach_dir.1 ≠ 0 ∨ approach_dir.2 ≠ 0 then [approach_dir] else [])

/-- `find_nearest_passable_tile` from `src/pathfinding.rs`: scan radii
1..5, testing at each radius the candidates `target + dir * radius` in
the priority order of `nearest_directions`, returning the first
passable one. -/
def find_nearest_passable_tile (target start : GridPos) (sm : StructureManager) :
    Option GridPos :=
  let approach_dir : GridPos := ((target.1 - start.1).sign, (target.2 - start.2).sign)
  let directions := nearest_directions approach_dir
  ([1, 2, 3, 4, 5] : List Int).findSome? (fun radius =>
    directions.findSome? (fun dir =>
      let candidate : GridPos := (target.1 + dir.1 * radius, target.2 + dir.2 * radius)
      if is_tile_passable candidate sm then some candidate else none))

/-- The substitute-goal candidates as described by the spec's
unreachable-goal policy (claim C6), written declaratively: one flat
list, radius-major for radii 1..5, and inside each radius the offsets
`goal + direction * radius` with the directions in the spec's priority
order — directly opposite the approach, then the orthogonal directions
perpendicular to each nonzero component of the approach axis, then the
four diagonals, then the approach direction itself last (omitting the
approach-derived entries when the approach is null).  This definition
follows the spec's words and is compared against the source's
`find_nearest_passable_tile` in the C6 theorem. -/
def spec_candidate_tiles (target start : GridPos) : List GridPos :=
  let approach : GridPos := ((target.1 - start.1).sign, (target.2 - start.2).sign)
  let priority : List GridPos :=
    (if approach ≠ ((0, 0) : GridPos) then [((-approach.1, -approach.2) : GridPos)] else [])
    ++ (if approach.1 ≠ 0 then [((0, 1) : GridPos), (0, -1)] else [])
    ++ (if approach.2 ≠ 0 then [((1, 0) : GridPos), (-1, 0)] else [])
    ++ [(-1, -1), (1, -1), (-1, 1), (1, 1)]
    ++ (if approach ≠ ((0, 0) : GridPos) then [approach] else [])
  (([1, 2, 3, 4, 5] : List Int).map (fun radius =>
    priority.map (fun dir => ((target.1 + dir.1 * radius, target.2 + dir.2 * radius) :
      GridPos)))).flatten

/-- The effective goal used by `find_path`: the literal goal when it is
passable, otherwise `find_nearest_passable_tile(..).unwrap_or(start)`. -/
def actual_end_grid (start_grid end_grid : GridPos) (sm : StructureManager) : GridPos :=
  if ¬ is_tile_passable end_grid sm then
    (find_nearest_passable_tile end_grid start_grid sm).getD start_grid
  else end_grid

/-- The two `continue` filters of `find_path`'s neighbor expansion
(`src/pathfinding.rs`), as one predicate: a step is filtered out when it
is diagonal with at least one of the two orthogonal corner tiles
impassable, or when the destination tile is impassable. -/
def neighbor_filtered (sm : StructureManager) (cur neighbor_pos : GridPos) : Bool :=
  (is_diagonal cur neighbor_pos
    && (!is_tile_passable (cur.1, neighbor_pos.2) sm
        || !is_tile_passable (neighbor_pos.1, cur.2) sm))
  || !is_tile_passable neighbor_pos sm

/-- One neighbor inspection of `find_path`'s expansion loop: apply the
two filters, then either improve an existing node (lower `g_cost`, new
parent, pushed again on the open set) or record and push a new node.
`acc` is the pair (open set, all_nodes). -/
def step_neighbor (sm : StructureManager) (goal : GridPos) (current_node : PathNode)
    (acc : List PathNode × List (GridPos × PathNode)) (neighbor_pos : GridPos) :
    List PathNode × List (GridPos × PathNode) :=
  if neighbor_filtered sm current_node.pos neighbor_pos then acc
  else
    let move_cost : Nat := if is_diagonal current_node.pos neighbor_pos then 1414 else 1000
    let new_g_cost := current_node.g_cost + move_cost
    match alGet acc.2 neighbor_pos with
    | some existing_node =>
        if new_g_cost < existing_node.g_cost then
          let updated : PathNode :=
            ⟨neighbor_pos, new_g_cost, existing_node.h_sq, some current_node.pos⟩
          (acc.1 ++ [updated], alSet acc.2 neighbor_pos updated)
        else acc
    | none =>
        let neighbor_node : PathNode :=
          ⟨neighbor_pos, new_g_cost, heuristic_sq neighbor_pos goal, some current_node.pos⟩
        (acc.1 ++ [neighbor_node], acc.2 ++ [(neighbor_pos, neighbor_node)])

/-- How a `find_path` invocation ended. -/
inductive SearchOutcome where
  | found
  | budgetExceeded
  | exhausted
deriving DecidableEq, Repr

/-- The A* main loop of `find_path` (`src/pathfinding.rs`).  The heap
pop is abstracted by `sel`, which picks the index of the element to pop
(taken modulo the open-set length): the source pops a minimum of its
binary heap ordered by `f32` f-cost, an order that floating-point
rounding and heap tie-breaking make unreproducible arithmetically;
every theorem below holds for all `sel`, in particular for the source's
order.  `fuel` is the remaining budget and decreases once per pop that
passes the budget check, so the recursion is exactly the source's loop:
a pop that arrives with no budget left is the source's
`expansions > max_expansions` bail-out. -/
def astar_loop (sm : StructureManager) (goal : GridPos) (sel : List PathNode → Nat) :
    Nat → List PathNode → List (GridPos × PathNode) → Nat →
      SearchOutcome × List (GridPos × PathNode) × Nat
  | fuel, open_set, all_nodes, processed =>
      match open_set with
      | [] => (SearchOutcome.exhausted, all_nodes, processed)
      | o :: os =>
          let idx := sel (o :: os) % (o :: os).length
          let current_node := (o :: os).getD idx o
          let rest := (o :: os).eraseIdx idx
          match fuel with
          | 0 => (SearchOutcome.budgetExceeded, all_nodes, processed)
          | fuel' + 1 =>
              if current_node.pos = goal then
                (SearchOutcome.found, all_nodes, processed + 1)
              else
                let next := (get_neighbors current_node.pos).foldl
                  (step_neighbor sm goal current_node) (rest, all_nodes)
                astar_loop sm goal sel fuel' next.1 next.2 (processed + 1)

/-- The `all_nodes.values().min_by(h_cost)` fallback of `find_path`:
first strictly-smaller element wins, over the recording order of the
embedding (the source iterates a `HashMap` in unspecified order; the
properties proved about the result hold for any minimum). -/
def min_by_hsq (all_nodes : List (GridPos × PathNode)) : Option PathNode :=
  all_nodes.foldl
    (fun best p =>
      match best with
      | none => some p.2
      | some b => if p.2.h_sq < b.h_sq then some p.2 else some b)
    none

/-- `reconstruct_path` from `src/pathfinding.rs`, producing grid
positions: walk the parent chain, prepending each visited node's
position.  The source's unbounded `while let` loop is run with fuel
`all_nodes.length + 1`, which reaches the root on every parent
structure the search builds because `g_cost` strictly decreases along
parent links (`reconstruct_path_head`); the source maps tile centres as
it walks, which is the composition with `grid_to_tile_pos` that
`find_path` applies afterwards here. -/
def reconstruct_path (all_nodes : List (GridPos × PathNode)) :
    Nat → GridPos → List GridPos
  | 0, _ => []
  | fuel + 1, current =>
      match alGet all_nodes current with
      | none => []
      | some node =>
          match node.parent with
          | none => [node.pos]
          | some parent => reconstruct_path all_nodes fuel parent ++ [node.pos]

/-- Instrumented result of a `find_path` invocation: `result` is the
source's return value (on grid positions); `outcome`, `all_nodes` and
`processed` (the number of expansions that passed the budget check) are
ghost observations used to state claims C3 and C5. -/
structure FindPathRun where
  result : Option (List GridPos)
  outcome : SearchOutcome
  all_nodes : List (GridPos × PathNode)
  processed : Nat
deriving Repr

/-- `find_path` from `src/pathfinding.rs` on grid coordinates (after
the two `tile_pos_to_rounded_tile` conversions at entry), instrumented
as `FindPathRun`. -/
def find_path_grid_run (sel : List PathNode → Nat) (start_grid end_grid : GridPos)
    (structure_manager : StructureManager) : FindPathRun :=
  let goal := actual_end_grid start_grid end_grid structure_manager
  let limit := max_expansions start_grid goal
  let start_node : PathNode := ⟨start_grid, 0, heuristic_sq start_grid goal, none⟩
  let run := astar_loop structure_manager goal sel limit
    [start_node] [(start_grid, start_node)] 0
  match run.1 with
  | SearchOutcome.found =>
      ⟨some (reconstruct_path run.2.1 (run.2.1.length + 1) goal),
       SearchOutcome.found, run.2.1, run.2.2⟩
  | SearchOutcome.budgetExceeded =>
      match min_by_hsq run.2.1 with
      | some best =>
          ⟨some (reconstruct_path run.2.1 (run.2.1.length + 1) best.pos),
           SearchOutcome.budgetExceeded, run.2.1, run.2.2⟩
      | none => ⟨none, SearchOutcome.budgetExceeded, run.2.1, run.2.2⟩
  | SearchOutcome.exhausted => ⟨none, SearchOutcome.exhausted, run.2.1, run.2.2⟩

/-- The instrumented `find_path` on the source's `Vec2` interface. -/
def find_path_run (sel : List PathNode → Nat) (start_pos end_pos : Vec2)
    (structure_manager : StructureManager) : FindPathRun :=
  find_path_grid_run sel (tile_pos_to_rounded_tile start_pos)
    (tile_pos_to_rounded_tile end_pos) structure_manager

/-- `find_path` from `src/pathfinding.rs`: the returned waypoints are
the tile centres of the reconstructed grid path. -/
def find_path (sel : List PathNode → Nat) (start_pos end_pos : Vec2)
    (structure_manager : StructureManager) : Option (List Vec2) :=
  ((find_path_run sel start_pos end_pos structure_manager).result).map
    (List.map grid_to_tile_pos)

/-- A fixed pop choice (always index 0), used to instantiate `sel` on
concrete runs. -/
def first_sel : List PathNode → Nat := fun _ => 0

/-- Chebyshev adjacency of two grid tiles (orthogonal or diagonal
neighbors). -/
def cheb_adjacent (a b : GridPos) : Prop :=
  max (a.1 - b.1).natAbs (a.2 - b.2).natAbs = 1

/-- The invariant `astar_loop` maintains on `all_nodes`: duplicate-free
keys; every node records its own key as `pos`; the start node is
recorded with no parent and `g_cost` 0; every parent link points to a
recorded node that is Chebyshev-adjacent, has strictly smaller `g_cost`
(by at least one orthogonal step), and never targets the start as
child; only the start has no parent; and every recorded tile other than
the start is passable. -/
def NodesInv (sm : StructureManager) (start : GridPos)
    (all_nodes : List (GridPos × PathNode)) : Prop :=
  (all_nodes.map Prod.fst).Nodup
  ∧ (∀ p ∈ all_nodes, p.2.pos = p.1)
  ∧ (∃ sn, alGet all_nodes start = some sn ∧ sn.parent = none ∧ sn.g_cost = 0)
  ∧ (∀ p ∈ all_nodes, ∀ q ∈ p.2.parent, ∃ pn, alGet all_nodes q = some pn
        ∧ pn.g_cost + 1000 ≤ p.2.g_cost ∧ cheb_adjacent q p.1 ∧ p.1 ≠ start)
  ∧ (∀ p ∈ all_nodes, p.2.parent = none → p.1 = start)
  ∧ (∀ p ∈ all_nodes, p.1 ≠ start → is_tile_passable p.1 sm = true)

/-- The invariant tying the open set to `all_nodes`: every open entry's
position is recorded, with a recorded `g_cost` no larger than the
entry's (the open set holds stale clones; `all_nodes` only improves). -/
def OpenInv (open_set : List PathNode) (all_nodes : List (GridPos × PathNode)) : Prop :=
  ∀ o ∈ open_set, ∃ n, alGet all_nodes o.pos = some n ∧ n.g_cost ≤ o.g_cost

theorem isqrt_go_spec (n : Nat) :
    ∀ (fuel acc : Nat), acc * acc ≤ n → n < (acc + fuel + 1) * (acc + fuel + 1) →
      isqrt_go n fuel acc * isqrt_go n fuel acc ≤ n
      ∧ n < (isqrt_go n fuel acc + 1) * (isqrt_go n fuel acc + 1) := by
  intro fuel
  induction fuel with
  | zero =>
      intro acc h1 h2
      exact ⟨h1, by simpa using h2⟩
  | succ fuel ih =>
      intro acc h1 h2
      rw [isqrt_go]
      by_cases hc : (acc + 1) * (acc + 1) ≤ n
      · rw [if_pos hc]
        refine ih (acc + 1) hc ?_
        have he : acc + 1 + fuel + 1 = acc + (fuel + 1) + 1 := by ring
        rw [he]
        exact h2
      · rw [if_neg hc]
        exact ⟨h1, by omega⟩

theorem isqrt_eq_sqrt (n : Nat) : isqrt n = Nat.sqrt n := by
  obtain ⟨h1, h2⟩ := isqrt_go_spec n n 0 (by omega) (by nlinarith)
  have hle : isqrt n ≤ Nat.sqrt n := Nat.le_sqrt.mpr h1
  have hlt : Nat.sqrt n < isqrt n + 1 := Nat.sqrt_lt.mpr h2
  omega

theorem alGet_alUpsert {κ ν : Type} [DecidableEq κ] (f : ν → ν) (d : ν)
    (l : List (κ × ν)) (k k' : κ) :
    alGet (alUpsert f d l k) k' =
      if k = k' then some (f ((alGet l k).getD d)) else alGet l k' := by
  induction l with
  | nil =>
      simp only [alUpsert, alGet]
      by_cases h : k = k' <;> simp [h]
  | cons p rest ih =>
      obtain ⟨k₀, v₀⟩ := p
      by_cases h0 : k₀ = k
      · subst h0
        by_cases h1 : k₀ = k' <;> simp [alUpsert, alGet, h1]
      · simp only [alUpsert, if_neg h0, alGet]
        by_cases h1 : k₀ = k'
        · subst h1
          have hkk : ¬ k = k₀ := fun h => h0 h.symm
          simp [alGet, if_neg h0, ih, hkk]
        · simp [alGet, if_neg h1, ih]

theorem alGet_alSet {κ ν : Type} [DecidableEq κ] (l : List (κ × ν)) (k k' : κ) (w : ν) :
    alGet (alSet l k w) k' =
      if k = k' ∧ (alGet l k).isSome then some w else alGet l k' := by
  induction l with
  | nil => simp [alSet, alGet]
  | cons p rest ih =>
      obtain ⟨k₀, v₀⟩ := p
      by_cases h0 : k₀ = k
      · subst h0
        by_cases h1 : k₀ = k' <;> simp [alSet, alGet, h1]
      · simp only [alSet, if_neg h0, alGet]
        by_cases h1 : k₀ = k'
        · subst h1
          have hkk : ¬ k = k₀ := fun h => h0 h.symm
          simp [alGet, if_neg h0, ih, hkk]
        · simp [alGet, if_neg h1, ih]

theorem alGet_eq_none_of_not_mem {κ ν : Type} [DecidableEq κ] (l : List (κ × ν)) (k : κ)
    (h : k ∉ l.map Prod.fst) : alGet l k = none := by
  induction l with
  | nil => rfl
  | cons p rest ih =>
      obtain ⟨k₀, v₀⟩ := p
      simp only [List.map_cons, List.mem_cons] at h
      push_neg at h
      have hne : ¬ k₀ = k := fun hh => h.1 hh.symm
      simp [alGet, if_neg hne, ih h.2]

theorem alGet_alRemove {κ ν : Type} [DecidableEq κ] (l : List (κ × ν)) (k k' : κ)
    (hnd : (l.map Prod.fst).Nodup) :
    alGet (alRemove l k) k' = if k = k' then none else alGet l k' := by
  induction l with
  | nil => simp [alRemove, alGet]
  | cons p rest ih =>
      obtain ⟨k₀, v₀⟩ := p
      simp only [List.map_cons, List.nodup_cons] at hnd
      by_cases h0 : k₀ = k
      · subst h0
        by_cases h1 : k₀ = k'
        · subst h1
          simp only [alRemove, if_pos rfl, if_pos rfl]
          exact alGet_eq_none_of_not_mem rest k₀ hnd.1
        · simp [alRemove, alGet, if_neg h1]
      · simp only [alRemove, if_neg h0, alGet]
        by_cases h1 : k₀ = k'
        · subst h1
          have hkk : ¬ k = k₀ := fun h => h0 h.symm
          simp [if_neg hkk]
        · simp [if_neg h1, ih hnd.2]

theorem map_fst_alUpsert {κ ν : Type} [DecidableEq κ] (f : ν → ν) (d : ν)
    (l : List (κ × ν)) (k : κ) :
    (alUpsert f d l k).map Prod.fst =
      if k ∈ l.map Prod.fst then l.map Prod.fst else l.map Prod.fst ++ [k] := by
  induction l with
  | nil => simp [alUpsert]
  | cons p rest ih =>
      obtain ⟨k₀, v₀⟩ := p
      by_cases h0 : k₀ = k
      · subst h0
        simp [alUpsert]
      · have hkk : ¬ k = k₀ := fun h => h0 h.symm
        simp only [alUpsert, if_neg h0, List.map_cons, List.mem_cons]
        by_cases hmem : k ∈ rest.map Prod.fst
        · simp [ih, hmem, hkk]
        · simp [ih, hmem, hkk]

theorem map_fst_alSet {κ ν : Type} [DecidableEq κ] (l : List (κ × ν)) (k : κ) (w : ν) :
    (alSet l k w).map Prod.fst = l.map Prod.fst := by
  induction l with
  | nil => simp [alSet]
  | cons p rest ih =>
      obtain ⟨k₀, v₀⟩ := p
      by_cases h0 : k₀ = k <;> simp [alSet, h0, ih]

theorem alRemove_sublist {κ ν : Type} [DecidableEq κ] (l : List (κ × ν)) (k : κ) :
    (alRemove l k).Sublist l := by
  induction l with
  | nil => simp [alRemove]
  | cons p rest ih =>
      obtain ⟨k₀, v₀⟩ := p
      by_cases h0 : k₀ = k
      · rw [alRemove, if_pos h0]
        exact List.sublist_cons_self (k₀, v₀) rest
      · rw [alRemove, if_neg h0]
        exact ih.cons₂ (k₀, v₀)

theorem nodup_fst_alUpsert {κ ν : Type} [DecidableEq κ] (f : ν → ν) (d : ν)
    (l : List (κ × ν)) (k : κ) (h : (l.map Prod.fst).Nodup) :
    ((alUpsert f d l k).map Prod.fst).Nodup := by
  rw [map_fst_alUpsert]
  by_cases hmem : k ∈ l.map Prod.fst
  · simp only [if_pos hmem]; exact h
  · simpa [hmem] using (List.Nodup.append h (by simp) (by simpa using hmem))

theorem nodup_fst_alSet {κ ν : Type} [DecidableEq κ] (l : List (κ × ν)) (k : κ) (w : ν)
    (h : (l.map Prod.fst).Nodup) : ((alSet l k w).map Prod.fst).Nodup := by
  rw [map_fst_alSet]; exact h

theorem nodup_fst_alRemove {κ ν : Type} [DecidableEq κ] (l : List (κ × ν)) (k : κ)
    (h : (l.map Prod.fst).Nodup) : ((alRemove l k).map Prod.fst).Nodup :=
  ((alRemove_sublist l k).map Prod.fst).nodup h

theorem mem_alUpsert {κ ν : Type} [DecidableEq κ] (f : ν → ν) (d : ν)
    (l : List (κ × ν)) (k : κ) (p : κ × ν) :
    p ∈ alUpsert f d l k → p ∈ l ∨ p.2 = f ((alGet l k).getD d) := by
  induction l with
  | nil =>
      intro hp
      simp only [alUpsert, List.mem_singleton] at hp
      right
      rw [hp]
      simp [alGet]
  | cons q rest ih =>
      obtain ⟨k₀, v₀⟩ := q
      by_cases h0 : k₀ = k
      · subst h0
        intro hp
        rw [alUpsert, if_pos rfl, List.mem_cons] at hp
        rcases hp with hp1 | hp1
        · right; rw [hp1]; simp [alGet]
        · left; exact List.mem_cons_of_mem _ hp1
      · intro hp
        rw [alUpsert, if_neg h0, List.mem_cons] at hp
        rcases hp with hp1 | hp1
        · left; rw [hp1]; exact List.mem_cons_self _ _
        · rcases ih hp1 with h | h
          · left; exact List.mem_cons_of_mem _ h
          · right
            simpa [alGet, if_neg h0] using h

theorem mem_alSet {κ ν : Type} [DecidableEq κ] (l : List (κ × ν)) (k : κ) (w : ν)
    (p : κ × ν) : p ∈ alSet l k w → p ∈ l ∨ p.2 = w := by
  induction l with
  | nil => intro hp; simp [alSet] at hp
  | cons q rest ih =>
      obtain ⟨k₀, v₀⟩ := q
      by_cases h0 : k₀ = k
      · subst h0
        intro hp
        rw [alSet, if_pos rfl, List.mem_cons] at hp
        rcases hp with hp1 | hp1
        · right; rw [hp1]
        · left; exact List.mem_cons_of_mem _ hp1
      · intro hp
        rw [alSet, if_neg h0, List.mem_cons] at hp
        rcases hp with hp1 | hp1
        · left; rw [hp1]; exact List.mem_cons_self _ _
        · rcases ih hp1 with h | h
          · left; exact List.mem_cons_of_mem _ h
          · right; exact h

theorem mem_alRemove {κ ν : Type} [DecidableEq κ] (l : List (κ × ν)) (k : κ)
    (p : κ × ν) (hp : p ∈ alRemove l k) : p ∈ l :=
  (alRemove_sublist l k).mem hp

theorem alGet_mem {κ ν : Type} [DecidableEq κ] (l : List (κ × ν)) (k : κ) (v : ν)
    (h : alGet l k = some v) : (k, v) ∈ l := by
  induction l with
  | nil => simp [alGet] at h
  | cons p rest ih =>
      obtain ⟨k₀, v₀⟩ := p
      by_cases h0 : k₀ = k
      · subst h0
        rw [alGet, if_pos rfl] at h
        rw [Option.some_inj] at h
        subst h
        exact List.mem_cons_self _ _
      · rw [alGet, if_neg h0] at h
        exact List.mem_cons_of_mem _ (ih h)

theorem total_reserved_eq (r : Reservations) (c : Entity) (k : ItemKind) :
    r.total_reserved c k
      = (((alGet r.reserved c).getD []).map (fun p => (alGet p.2 k).getD 0)).sum := by
  unfold Reservations.total_reserved
  cases h : alGet r.reserved c <;> simp

theorem owner_reserved_eq (r : Reservations) (o c : Entity) (k : ItemKind) :
    r.owner_reserved o c k
      = (alGet ((alGet ((alGet r.reserved c).getD []) o).getD []) k).getD 0 := by
  unfold Reservations.owner_reserved
  cases h1 : alGet r.reserved c with
  | none => simp [alGet]
  | some om =>
      cases h2 : alGet om o with
      | none => simp [h2, alGet]
      | some km => simp [h2]

theorem sum_alUpsert_owner (om : List (Entity × List (ItemKind × Nat))) (o : Entity)
    (k : ItemKind) (qty : Nat) :
    ((alUpsert (fun km => alUpsert (· + qty) 0 km k) [] om o).map
        (fun p => (alGet p.2 k).getD 0)).sum
      = (om.map (fun p => (alGet p.2 k).getD 0)).sum + qty := by
  induction om with
  | nil => simp [alUpsert, alGet, alGet_alUpsert]
  | cons p rest ih =>
      obtain ⟨o₀, km₀⟩ := p
      by_cases h0 : o₀ = o
      · subst h0
        simp [alUpsert, alGet_alUpsert]
        omega
      · simp only [alUpsert, if_neg h0, List.map_cons, List.sum_cons, ih]
        omega

theorem total_reserved_reserveInsert (r : Reservations) (o c : Entity) (k : ItemKind)
    (qty : Nat) :
    (r.reserveInsert o c k qty).total_reserved c k = r.total_reserved c k + qty := by
  rw [total_reserved_eq, total_reserved_eq]
  unfold Reservations.reserveInsert
  simp only [alGet_alUpsert, if_pos rfl, Option.getD_some]
  exact sum_alUpsert_owner _ o k qty

theorem owner_reserved_reserveInsert (r : Reservations) (o c : Entity) (k : ItemKind)
    (qty : Nat) :
    (r.reserveInsert o c k qty).owner_reserved o c k = r.owner_reserved o c k + qty := by
  rw [owner_reserved_eq, owner_reserved_eq]
  unfold Reservations.reserveInsert
  simp [alGet_alUpsert]

theorem try_reserve_eq (r : Reservations) (o c : Entity) (k : ItemKind) (qty : Nat)
    (inv : Inventory) :
    r.try_reserve o c k qty inv =
      if inv.count k - r.total_reserved c k < qty then (false, r)
      else (true, r.reserveInsert o c k qty) := rfl

theorem run_reserves_le (c : Entity) (k : ItemKind) (inv : Inventory) :
    ∀ (calls : List (Entity × Nat)) (s : Reservations),
      s.total_reserved c k ≤ inv.count k →
      (run_reserves c k inv s calls).2 + s.total_reserved c k ≤ inv.count k := by
  intro calls
  induction calls with
  | nil => intro s h; simpa [run_reserves] using h
  | cons p rest ih =>
      intro s h
      obtain ⟨o, q⟩ := p
      by_cases hc : inv.count k - s.total_reserved c k < q
      · have hstep : s.try_reserve o c k q inv = (false, s) := by
          rw [try_reserve_eq, if_pos hc]
        have htail := ih s h
        simp only [run_reserves, hstep, if_neg (by simp : ¬ (false = true))]
        simpa using htail
      · have hstep : s.try_reserve o c k q inv = (true, s.reserveInsert o c k q) := by
          rw [try_reserve_eq, if_neg hc]
        have htot : (s.reserveInsert o c k q).total_reserved c k
            = s.total_reserved c k + q := total_reserved_reserveInsert s o c k q
        have htail := ih (s.reserveInsert o c k q) (by rw [htot]; omega)
        rw [htot] at htail
        have hgoal : (run_reserves c k inv s ((o, q) :: rest)).2
            = q + (run_reserves c k inv (s.reserveInsert o c k q) rest).2 := by
          simp [run_reserves, hstep]
        rw [hgoal]
        omega

/-- C1: for a fixed container `c`, kind `k` and stock value (the count of
`k` in the chest inventory passed unchanged to each call), a `try_reserve`
call succeeds (recording exactly `qty` more for the calling owner, and
`qty` more in total) if and only if the stock minus the total already
reserved is at least `qty`; a failing call returns the ledger completely
unchanged; and over any sequence of such calls with no intervening
release, the sum of the quantities of the succeeded calls never exceeds
the stock (the subtraction is `Nat`, matching the source's
`saturating_sub`). -/
theorem try_reserve_no_over_reservation (s : Reservations) (o c : Entity) (k : ItemKind)
    (qty : Nat) (inv : Inventory) :
    ((s.try_reserve o c k qty inv).1 = true ↔ qty ≤ inv.count k - s.total_reserved c k)
    ∧ ((s.try_reserve o c k qty inv).1 = true →
        (s.try_reserve o c k qty inv).2.owner_reserved o c k = s.owner_reserved o c k + qty
          ∧ (s.try_reserve o c k qty inv).2.total_reserved c k
              = s.total_reserved c k + qty)
    ∧ ((s.try_reserve o c k qty inv).1 = false → (s.try_reserve o c k qty inv).2 = s)
    ∧ (∀ calls : List (Entity × Nat), s.total_reserved c k ≤ inv.count k →
        (run_reserves c k inv s calls).2 + s.total_reserved c k ≤ inv.count k) := by
  have hiff : (s.try_reserve o c k qty inv).1 = true
      ↔ qty ≤ inv.count k - s.total_reserved c k := by
    rw [try_reserve_eq]
    by_cases hc : inv.count k - s.total_reserved c k < qty
    · rw [if_pos hc]
      constructor
      · intro h; exact absurd h (by simp)
      · intro h; exact absurd h (by omega)
    · rw [if_neg hc]
      constructor
      · intro _; omega
      · intro _; rfl
  refine ⟨hiff, ?_, ?_, fun calls h => run_reserves_le c k inv calls s h⟩
  · intro hsucc
    have hc : ¬ (inv.count k - s.total_reserved c k < qty) := by
      have := hiff.mp hsucc
      omega
    rw [try_reserve_eq, if_neg hc]
    exact ⟨owner_reserved_reserveInsert s o c k qty, total_reserved_reserveInsert s o c k qty⟩
  · intro hfail
    by_cases hc : inv.count k - s.total_reserved c k < qty
    · rw [try_reserve_eq, if_pos hc]
    · rw [try_reserve_eq, if_neg hc] at hfail
      simp at hfail

/-- Witness for C1 at a concrete input: the empty ledger, chest 1
holding 3 Rock, owner 0 reserving 2, then the call sequence
`[(0, 2), (5, 2)]`. -/
theorem try_reserve_no_over_reservation_witness :
    ((Reservations.mk []).try_reserve 0 1 ItemKind.Rock 2
        ⟨[(ItemKind.Rock, 3)]⟩).2.owner_reserved 0 1 ItemKind.Rock
      = (Reservations.mk []).owner_reserved 0 1 ItemKind.Rock + 2
    ∧ (run_reserves 1 ItemKind.Rock ⟨[(ItemKind.Rock, 3)]⟩ ⟨[]⟩ [(0, 2), (5, 2)]).2
        + (Reservations.mk []).total_reserved 1 ItemKind.Rock
      ≤ Inventory.count ⟨[(ItemKind.Rock, 3)]⟩ ItemKind.Rock :=
  ⟨((try_reserve_no_over_reservation ⟨[]⟩ 0 1 ItemKind.Rock 2
      ⟨[(ItemKind.Rock, 3)]⟩).2.1 (by decide)).1,
   (try_reserve_no_over_reservation ⟨[]⟩ 0 1 ItemKind.Rock 2
      ⟨[(ItemKind.Rock, 3)]⟩).2.2.2 [(0, 2), (5, 2)] (by decide)⟩

theorem inner_nodup_of_WF (r : Reservations) (h : ReservationsWF r) (c : Entity) :
    ((((alGet r.reserved c).getD []).map Prod.fst)).Nodup := by
  cases hg : alGet r.reserved c with
  | none => simp
  | some om => simpa using h.2.1 (c, om) (alGet_mem _ _ _ hg)

theorem kindmaps_nodup_of_WF (r : Reservations) (h : ReservationsWF r) (c : Entity) :
    ∀ q ∈ ((alGet r.reserved c).getD []),
      ((q.2.map Prod.fst : List ItemKind)).Nodup := by
  cases hg : alGet r.reserved c with
  | none => simp
  | some om =>
      intro q hq
      exact h.2.2 (c, om) (alGet_mem _ _ _ hg) q (by simpa using hq)

theorem nodup_fst_kindRelease (km : List (ItemKind × Nat)) (k : ItemKind) (qty : Nat)
    (h : (km.map Prod.fst).Nodup) : ((kindRelease km k qty).map Prod.fst).Nodup := by
  unfold kindRelease
  cases hk : alGet km k with
  | none => exact h
  | some v =>
      dsimp only
      by_cases hz : v - qty = 0
      · rw [if_pos hz]
        exact nodup_fst_alRemove _ _ h
      · rw [if_neg hz]
        exact nodup_fst_alSet _ _ _ h

theorem WF_reserveInsert (r : Reservations) (h : ReservationsWF r) (o c : Entity)
    (k : ItemKind) (qty : Nat) : ReservationsWF (r.reserveInsert o c k qty) := by
  refine ⟨nodup_fst_alUpsert _ _ _ _ h.1, ?_, ?_⟩
  · intro p hp
    rcases mem_alUpsert _ _ _ _ p hp with hmem | heq
    · exact h.2.1 p hmem
    · rw [heq]
      exact nodup_fst_alUpsert _ _ _ _ (inner_nodup_of_WF r h c)
  · intro p hp q hq
    rcases mem_alUpsert _ _ _ _ p hp with hmem | heq
    · exact h.2.2 p hmem q hq
    · rw [heq] at hq
      rcases mem_alUpsert _ _ _ _ q hq with hmem2 | heq2
      · exact kindmaps_nodup_of_WF r h c q hmem2
      · rw [heq2]
        refine nodup_fst_alUpsert _ _ _ _ ?_
        cases hgo : alGet ((alGet r.reserved c).getD []) o with
        | none => simp
        | some km =>
            simpa using kindmaps_nodup_of_WF r h c (o, km) (alGet_mem _ _ _ hgo)

theorem WF_try_reserve (r : Reservations) (h : ReservationsWF r) (o c : Entity)
    (k : ItemKind) (qty : Nat) (inv : Inventory) :
    ReservationsWF (r.try_reserve o c k qty inv).2 := by
  rw [try_reserve_eq]
  by_cases hc : inv.count k - r.total_reserved c k < qty
  · rw [if_pos hc]; exact h
  · rw [if_neg hc]; exact WF_reserveInsert r h o c k qty

theorem nodup_fst_ownerRelease (om : List (Entity × List (ItemKind × Nat))) (o : Entity)
    (k : ItemKind) (qty : Nat) (h : (om.map Prod.fst).Nodup) :
    ((ownerRelease om o k qty).map Prod.fst).Nodup := by
  unfold ownerRelease
  cases hgo : alGet om o with
  | none => exact h
  | some km =>
      dsimp only
      by_cases hkm : kindRelease km k qty = []
      · rw [if_pos hkm]
        exact nodup_fst_alRemove _ _ h
      · rw [if_neg hkm]
        exact nodup_fst_alSet _ _ _ h

theorem WF_release (r : Reservations) (h : ReservationsWF r) (o c : Entity)
    (k : ItemKind) (qty : Nat) : ReservationsWF (r.release o c k qty) := by
  unfold Reservations.release
  cases hg : alGet r.reserved c with
  | none => exact h
  | some om =>
      dsimp only
      have hom : (om.map Prod.fst).Nodup := by simpa using h.2.1 (c, om) (alGet_mem _ _ _ hg)
      have hnd : ((ownerRelease om o k qty).map Prod.fst).Nodup :=
        nodup_fst_ownerRelease om o k qty hom
      have hkms : ∀ q ∈ ownerRelease om o k qty, ((q.2.map Prod.fst : List ItemKind)).Nodup := by
        unfold ownerRelease
        cases hgo : alGet om o with
        | none =>
            intro q hq
            exact h.2.2 (c, om) (alGet_mem _ _ _ hg) q hq
        | some km =>
            dsimp only
            by_cases hkm : kindRelease km k qty = []
            · rw [if_pos hkm]
              intro q hq
              exact h.2.2 (c, om) (alGet_mem _ _ _ hg) q (mem_alRemove _ _ q hq)
            · rw [if_neg hkm]
              intro q hq
              rcases mem_alSet _ _ _ q hq with hm | he
              · exact h.2.2 (c, om) (alGet_mem _ _ _ hg) q hm
              · rw [he]
                exact nodup_fst_kindRelease km k qty
                  (h.2.2 (c, om) (alGet_mem _ _ _ hg) (o, km) (alGet_mem _ _ _ hgo))
      by_cases hemp : ownerRelease om o k qty = []
      · rw [if_pos hemp]
        exact ⟨nodup_fst_alRemove _ _ h.1,
          fun p hp => h.2.1 p (mem_alRemove _ _ p hp),
          fun p hp q hq => h.2.2 p (mem_alRemove _ _ p hp) q hq⟩
      · rw [if_neg hemp]
        refine ⟨nodup_fst_alSet _ _ _ h.1, fun p hp => ?_, fun p hp q hq => ?_⟩
        · rcases mem_alSet _ _ _ p hp with hmem | heq
          · exact h.2.1 p hmem
          · rw [heq]; exact hnd
        · rcases mem_alSet _ _ _ p hp with hmem | heq
          · exact h.2.2 p hmem q hq
          · rw [heq] at hq
            exact hkms q hq

theorem WF_release_all (r : Reservations) (h : ReservationsWF r) (o : Entity) :
    ReservationsWF (r.release_all_for_owner o) := by
  constructor
  · have hkeys : ((r.reserved.map (fun p => (p.1, alRemove p.2 o))).map Prod.fst)
        = r.reserved.map Prod.fst := by
      simp [List.map_map, Function.comp]
    have hsub : ((r.reserved.map (fun p => (p.1, alRemove p.2 o))).filter
        (fun p => !p.2.isEmpty)).Sublist (r.reserved.map (fun p => (p.1, alRemove p.2 o))) :=
      List.filter_sublist _
    have := (hsub.map Prod.fst).nodup (by rw [hkeys]; exact h.1)
    exact this
  · refine ⟨fun p hp => ?_, fun p hp q hq => ?_⟩
    · have hp' : p ∈ r.reserved.map (fun p => (p.1, alRemove p.2 o)) :=
        (List.mem_filter.mp hp).1
      rcases List.mem_map.mp hp' with ⟨w, hw, hw2⟩
      rw [← hw2]
      exact nodup_fst_alRemove _ _ (h.2.1 w hw)
    · have hp' : p ∈ r.reserved.map (fun p => (p.1, alRemove p.2 o)) :=
        (List.mem_filter.mp hp).1
      rcases List.mem_map.mp hp' with ⟨w, hw, hw2⟩
      rw [← hw2] at hq
      exact h.2.2 w hw q (mem_alRemove _ _ q hq)

theorem reachable_WF (s : Reservations) (h : ReservationsReachable s) : ReservationsWF s := by
  induction h with
  | empty => exact ⟨by simp, by simp, by simp⟩
  | reserve s o c k q inv _ ih => exact WF_try_reserve s ih o c k q inv
  | release s o c k q _ ih => exact WF_release s ih o c k q
  | releaseAll s o _ ih => exact WF_release_all s ih o

theorem sum_entries_eq_sum_keys (k : ItemKind) (om : List (Entity × List (ItemKind × Nat)))
    (hnd : (om.map Prod.fst).Nodup) :
    (om.map (fun p => (alGet p.2 k).getD 0)).sum
      = ((om.map Prod.fst).map
          (fun o => (alGet ((alGet om o).getD []) k).getD 0)).sum := by
  induction om with
  | nil => simp
  | cons p rest ih =>
      obtain ⟨o₀, km₀⟩ := p
      simp only [List.map_cons, List.nodup_cons] at hnd
      rw [List.map_cons, List.sum_cons, List.map_cons, List.map_cons, List.sum_cons]
      have hhead : (alGet ((alGet ((o₀, km₀) :: rest) o₀).getD []) k).getD 0
          = (alGet km₀ k).getD 0 := by
        simp [alGet]
      rw [hhead]
      congr 1
      have hrest : ∀ o' ∈ rest.map Prod.fst,
          (alGet ((alGet ((o₀, km₀) :: rest) o').getD []) k).getD 0
            = (alGet ((alGet rest o').getD []) k).getD 0 := by
        intro o' ho'
        have hne : ¬ o₀ = o' := fun hh => hnd.1 (hh ▸ ho')
        simp [alGet, if_neg hne]
      rw [List.map_congr_left hrest]
      exact ih hnd.2

theorem total_eq_sum_of_WF (r : Reservations) (h : ReservationsWF r) (c : Entity)
    (k : ItemKind) :
    r.total_reserved c k = ((r.ownersAt c).map (fun o => r.owner_reserved o c k)).sum := by
  rw [total_reserved_eq]
  unfold Reservations.ownersAt
  have hconv : ∀ o : Entity, r.owner_reserved o c k
      = (alGet ((alGet ((alGet r.reserved c).getD []) o).getD []) k).getD 0 :=
    fun o => owner_reserved_eq r o c k
  rw [List.map_congr_left (fun o _ => hconv o)]
  exact sum_entries_eq_sum_keys k ((alGet r.reserved c).getD []) (inner_nodup_of_WF r h c)

/-- C2: in every ledger state reachable from the empty ledger by
`try_reserve` / `release` / `release_all_for_owner` calls, and for every
container `c` and kind `k`, the recorded owner list for `c` is
duplicate-free and `total_reserved c k` equals the sum over those owners
of `owner_reserved`.  (Both reads are embedded as pure functions of the
ledger value, as in the source, where they take `&self`.) -/
theorem ledger_conservation (s : Reservations) (h : ReservationsReachable s)
    (c : Entity) (k : ItemKind) :
    (s.ownersAt c).Nodup
      ∧ s.total_reserved c k = ((s.ownersAt c).map (fun o => s.owner_reserved o c k)).sum := by
  have hWF := reachable_WF s h
  refine ⟨?_, total_eq_sum_of_WF s hWF c k⟩
  exact (inner_nodup_of_WF s hWF c)

/-- Witness for C2 at a concrete reachable state: reserve 2 Rock on
chest 1 for owner 0, then release 1 of it. -/
theorem ledger_conservation_witness :
    let s := (((Reservations.mk []).try_reserve 0 1 ItemKind.Rock 2
        ⟨[(ItemKind.Rock, 3)]⟩).2.release 0 1 ItemKind.Rock 1)
    (s.ownersAt 1).Nodup
      ∧ s.total_reserved 1 ItemKind.Rock
          = ((s.ownersAt 1).map (fun o => s.owner_reserved o 1 ItemKind.Rock)).sum :=
  ledger_conservation _
    (ReservationsReachable.release _ 0 1 ItemKind.Rock 1
      (ReservationsReachable.reserve _ 0 1 ItemKind.Rock 2 ⟨[(ItemKind.Rock, 3)]⟩
        ReservationsReachable.empty))
    1 ItemKind.Rock

theorem alGet_ne_nil {κ ν : Type} [DecidableEq κ] (l : List (κ × ν)) (k : κ) (v : ν)
    (h : alGet l k = some v) : l ≠ [] := by
  intro he
  rw [he] at h
  simp [alGet] at h

theorem alSet_ne_nil {κ ν : Type} [DecidableEq κ] (l : List (κ × ν)) (k : κ) (w : ν)
    (h : l ≠ []) : alSet l k w ≠ [] := by
  cases l with
  | nil => exact absurd rfl h
  | cons p rest =>
      obtain ⟨a, b⟩ := p
      by_cases h0 : a = k <;> simp [alSet, h0]

theorem kindRelease_none (km : List (ItemKind × Nat)) (k : ItemKind) (q : Nat)
    (h : alGet km k = none) : kindRelease km k q = km := by
  unfold kindRelease
  rw [h]

theorem kindRelease_some (km : List (ItemKind × Nat)) (k : ItemKind) (q : Nat) (v : Nat)
    (h : alGet km k = some v) :
    kindRelease km k q = if v - q = 0 then alRemove km k else alSet km k (v - q) := by
  unfold kindRelease
  rw [h]

theorem ownerRelease_none (om : List (Entity × List (ItemKind × Nat))) (o : Entity)
    (k : ItemKind) (q : Nat) (h : alGet om o = none) : ownerRelease om o k q = om := by
  unfold ownerRelease
  rw [h]

theorem ownerRelease_some (om : List (Entity × List (ItemKind × Nat))) (o : Entity)
    (k : ItemKind) (q : Nat) (km : List (ItemKind × Nat)) (h : alGet om o = some km) :
    ownerRelease om o k q =
      if kindRelease km k q = [] then alRemove om o
      else alSet om o (kindRelease km k q) := by
  unfold ownerRelease
  rw [h]

theorem release_none (r : Reservations) (o c : Entity) (k : ItemKind) (q : Nat)
    (h : alGet r.reserved c = none) : r.release o c k q = r := by
  unfold Reservations.release
  rw [h]

theorem release_some (r : Reservations) (o c : Entity) (k : ItemKind) (q : Nat)
    (om : List (Entity × List (ItemKind × Nat))) (h : alGet r.reserved c = some om) :
    r.release o c k q =
      if ownerRelease om o k q = [] then ⟨alRemove r.reserved c⟩
      else ⟨alSet r.reserved c (ownerRelease om o k q)⟩ := by
  unfold Reservations.release
  rw [h]

theorem kindRelease_lookup (km : List (ItemKind × Nat)) (k : ItemKind) (q : Nat)
    (hnd : (km.map Prod.fst).Nodup) :
    (alGet (kindRelease km k q) k).getD 0 = (alGet km k).getD 0 - q := by
  cases hkk : alGet km k with
  | none => rw [kindRelease_none km k q hkk, hkk]; simp
  | some v =>
      rw [kindRelease_some km k q v hkk]
      by_cases hz : v - q = 0
      · rw [if_pos hz, alGet_alRemove _ _ _ hnd]
        simp [hz]
      · rw [if_neg hz, alGet_alSet]
        simp [hkk]

theorem ownerRelease_lookup (om : List (Entity × List (ItemKind × Nat))) (o : Entity)
    (k : ItemKind) (q : Nat) (hnd : (om.map Prod.fst).Nodup)
    (hall : ∀ p ∈ om, ((p.2.map Prod.fst : List ItemKind)).Nodup) :
    (alGet ((alGet (ownerRelease om o k q) o).getD []) k).getD 0
      = (alGet ((alGet om o).getD []) k).getD 0 - q := by
  cases hgo : alGet om o with
  | none =>
      rw [ownerRelease_none om o k q hgo, hgo]
      simp [alGet]
  | some km =>
      have hknd : (km.map Prod.fst).Nodup := hall (o, km) (alGet_mem _ _ _ hgo)
      have hkl := kindRelease_lookup km k q hknd
      rw [ownerRelease_some om o k q km hgo]
      by_cases hemp : kindRelease km k q = []
      · rw [if_pos hemp, alGet_alRemove _ _ _ hnd]
        rw [hemp] at hkl
        simp only [alGet] at hkl
        simp [alGet, ← hkl]
      · rw [if_neg hemp, alGet_alSet]
        simp [hgo, hkl]

theorem owner_reserved_release (r : Reservations) (hWF : ReservationsWF r)
    (o c : Entity) (k : ItemKind) (q : Nat) :
    (r.release o c k q).owner_reserved o c k = r.owner_reserved o c k - q := by
  rw [owner_reserved_eq, owner_reserved_eq]
  cases hg : alGet r.reserved c with
  | none =>
      rw [release_none r o c k q hg, hg]
      simp [alGet]
  | some om =>
      have hom : (om.map Prod.fst).Nodup := by
        simpa using hWF.2.1 (c, om) (alGet_mem _ _ _ hg)
      have hall : ∀ p ∈ om, ((p.2.map Prod.fst : List ItemKind)).Nodup := by
        intro p hp
        exact hWF.2.2 (c, om) (alGet_mem _ _ _ hg) p hp
      have hlook := ownerRelease_lookup om o k q hom hall
      rw [release_some r o c k q om hg]
      by_cases hemp : ownerRelease om o k q = []
      · rw [if_pos hemp]
        rw [hemp] at hlook
        simp only [alGet] at hlook
        have hchest : alGet (alRemove r.reserved c) c = none := by
          rw [alGet_alRemove _ _ _ hWF.1]
          simp
        dsimp only
        rw [hchest]
        simp only [Option.getD_none, alGet, Option.getD_some]
        simpa using hlook
      · rw [if_neg hemp]
        have hchest : alGet (alSet r.reserved c (ownerRelease om o k q)) c
            = some (ownerRelease om o k q) := by
          rw [alGet_alSet]
          simp [hg]
        dsimp only
        rw [hchest]
        simpa using hlook

/-- C9 (amended): a current `MoveTo(target)` action resolves — the
action is cleared and the pathfinding agent's target and path are
reset — exactly when the agent's path queue is empty and the agent's
tile position is within `BONUS_RANGE + UNIT_REACH` = 1.8 tiles of the
target (the claim's fixed reach of 1 tile is amended to 1.8: the source
adds `BONUS_RANGE = 0.8` to `UNIT_REACH = 1`). -/
theorem move_to_resolution (unit_world target_pos : Vec2) (agent_target : Option Vec2)
    (agent_path : List Vec2) :
    ((process_move_to unit_world target_pos agent_target agent_path).action = none
      ↔ agent_path = []
          ∧ distSq (world_pos_to_tile unit_world) target_pos
              ≤ (BONUS_RANGE + UNIT_REACH) ^ 2)
    ∧ ((process_move_to unit_world target_pos agent_target agent_path).action = none →
        (process_move_to unit_world target_pos agent_target agent_path).target = none
          ∧ (process_move_to unit_world target_pos agent_target agent_path).path = []) := by
  unfold process_move_to
  by_cases hc : agent_path = []
      ∧ distSq (world_pos_to_tile unit_world) target_pos ≤ (BONUS_RANGE + UNIT_REACH) ^ 2
  · rw [if_pos hc]
    exact ⟨⟨fun _ => hc, fun _ => rfl⟩, fun _ => ⟨rfl, rfl⟩⟩
  · rw [if_neg hc]
    constructor
    · constructor
      · intro h
        exact absurd h (by simp)
      · intro h
        exact absurd h hc
    · intro h
      exact absurd h (by simp)

/-- Witness for C9 at a concrete input: agent at tile (0,0), empty path,
target at (1/2, 1/2), which is within reach, so the action resolves. -/
theorem move_to_resolution_witness :
    (process_move_to ⟨0, 0⟩ ⟨1/2, 1/2⟩ (some ⟨1/2, 1/2⟩) []).target = none
      ∧ (process_move_to ⟨0, 0⟩ ⟨1/2, 1/2⟩ (some ⟨1/2, 1/2⟩) []).path = [] :=
  (move_to_resolution ⟨0, 0⟩ ⟨1/2, 1/2⟩ (some ⟨1/2, 1/2⟩) []).2
    (by norm_num [process_move_to, world_pos_to_tile, distSq, TILE_SIZE, BONUS_RANGE,
      UNIT_REACH])

/-- Counterexample to C9 as stated: with an empty path and the target at
tile distance 3/2 — farther than the claimed fixed reach of 1 tile —
the source still resolves the `MoveTo` action, because its threshold is
`BONUS_RANGE + UNIT_REACH` = 1.8, not `UNIT_REACH` = 1. -/
theorem move_to_reach_one_tile_counterexample :
    (process_move_to ⟨0, 0⟩ ⟨3/2, 0⟩ (some ⟨3/2, 0⟩) []).action = none
      ∧ ¬ distSq (world_pos_to_tile ⟨0, 0⟩) ⟨3/2, 0⟩ ≤ UNIT_REACH ^ 2 := by
  constructor
  · norm_num [process_move_to, world_pos_to_tile, distSq, TILE_SIZE, BONUS_RANGE, UNIT_REACH]
  · norm_num [world_pos_to_tile, distSq, TILE_SIZE, UNIT_REACH]

/-- C8 (amended): the movement executor has no stuck detection: a tick
of `movement_system` leaves the waypoint queue, the target and the task
untouched whenever the head waypoint has not been reached (distance
above `path_tolerance`), whatever the direction function, speed and
tick length — in particular an agent whose position never changes keeps
its waypoint queue and target forever. -/
theorem movement_no_stuck_abandon (f : Vec2 → Vec2) (speed dt : ℚ) (s : MovementState)
    (w : Vec2) (rest : List Vec2) (hpath : s.agent.path = w :: rest)
    (hfar : ¬ distSq (world_pos_to_tile s.translation) w ≤ s.agent.path_tolerance ^ 2) :
    (movement_system_step f speed dt s).agent.path = s.agent.path
      ∧ (movement_system_step f speed dt s).agent.target = s.agent.target
      ∧ (movement_system_step f speed dt s).has_task = s.has_task := by
  unfold movement_system_step
  rw [hpath]
  dsimp only
  rw [if_neg hfar]
  simp [hpath]

/-- Witness for C8 at a concrete input: an agent at the origin whose
next waypoint is 100.5 tiles away. -/
theorem movement_no_stuck_abandon_witness :
    (movement_system_step id 0 (1/60)
        ⟨⟨some ⟨201/2, 1/2⟩, [⟨201/2, 1/2⟩], 1/10⟩, ⟨0, 0⟩, true⟩).agent.path
      = (⟨⟨some ⟨201/2, 1/2⟩, [⟨201/2, 1/2⟩], 1/10⟩, ⟨0, 0⟩, true⟩ :
          MovementState).agent.path :=
  (movement_no_stuck_abandon id 0 (1/60)
    ⟨⟨some ⟨201/2, 1/2⟩, [⟨201/2, 1/2⟩], 1/10⟩, ⟨0, 0⟩, true⟩
    ⟨201/2, 1/2⟩ [] rfl
    (by norm_num [world_pos_to_tile, distSq, TILE_SIZE])).1

/-- Counterexample to C8 as stated: an agent driven along the non-empty
waypoint path `[(100.5, 1/2)]` with movement speed 0 (speeds are drawn
from `0..500` in the source's spawner) keeps exactly the same tile
position on every tick; after 400 ticks — more than five seconds' worth
at the source's target rate of 30 updates per second, and more than the
claimed timeout under any tick rate in the source — the waypoint queue
and the target are still intact: nothing in `movement_system` ever
abandons navigation. -/
theorem movement_stuck_detection_counterexample :
    ((movement_system_step id 0 (1/60))^[400]
        ⟨⟨some ⟨201/2, 1/2⟩, [⟨201/2, 1/2⟩], 1/10⟩, ⟨0, 0⟩, true⟩).agent.path
      = [⟨201/2, 1/2⟩]
    ∧ ((movement_system_step id 0 (1/60))^[400]
        ⟨⟨some ⟨201/2, 1/2⟩, [⟨201/2, 1/2⟩], 1/10⟩, ⟨0, 0⟩, true⟩).agent.target
      = some ⟨201/2, 1/2⟩
    ∧ ((movement_system_step id 0 (1/60))^[400]
        ⟨⟨some ⟨201/2, 1/2⟩, [⟨201/2, 1/2⟩], 1/10⟩, ⟨0, 0⟩, true⟩).translation
      = ⟨0, 0⟩ := by
  have hfix : movement_system_step id 0 (1/60)
      (⟨⟨some ⟨201/2, 1/2⟩, [⟨201/2, 1/2⟩], 1/10⟩, ⟨0, 0⟩, true⟩ : MovementState)
      = ⟨⟨some ⟨201/2, 1/2⟩, [⟨201/2, 1/2⟩], 1/10⟩, ⟨0, 0⟩, true⟩ := by
    norm_num [movement_system_step, world_pos_to_tile, distSq, TILE_SIZE]
  rw [Function.iterate_fixed hfix 400]
  exact ⟨rfl, rfl, rfl⟩

/-- C10: when the executor processes `Take(kind, qty, from)` with the
agent in reach of the source chest but the chest's stock of `kind` at
zero, no transfer occurs (unit inventory and provider rows unchanged),
the claimant's entire outstanding reservation on that chest and kind is
released (not merely `qty`), and the current action is cleared. -/
theorem take_zero_stock_releases_reservation (unit_ent : Entity) (unit_world : Vec2)
    (unit_inv : Inventory) (kind : ItemKind) (quantity : Nat) (fromEnt : Entity)
    (providers : List ProviderChest) (reservations : Reservations) (chest : ProviderChest)
    (hWF : ReservationsWF reservations)
    (hfind : providers.find? (fun p => p.ent == fromEnt) = some chest)
    (hreach : ¬ (BONUS_RANGE + UNIT_REACH) ^ 2
        < distSq (world_pos_to_tile chest.world) (world_pos_to_tile unit_world))
    (hzero : chest.inv.count kind = 0) :
    (process_take unit_ent unit_world unit_inv kind quantity fromEnt providers
        reservations).unit_inv = unit_inv
    ∧ (process_take unit_ent unit_world unit_inv kind quantity fromEnt providers
        reservations).providers = providers
    ∧ (process_take unit_ent unit_world unit_inv kind quantity fromEnt providers
        reservations).action = none
    ∧ (process_take unit_ent unit_world unit_inv kind quantity fromEnt providers
        reservations).reservations.owner_reserved unit_ent fromEnt kind = 0 := by
  unfold process_take
  rw [hfind]
  dsimp only
  rw [if_neg hreach]
  have hq : min quantity (chest.inv.count kind) = 0 := by
    rw [hzero]
    simp
  rw [hq]
  rw [if_pos rfl]
  refine ⟨rfl, rfl, rfl, ?_⟩
  dsimp only
  by_cases h0 : 0 < reservations.owner_reserved unit_ent fromEnt kind
  · rw [if_pos h0]
    rw [owner_reserved_release reservations hWF unit_ent fromEnt kind _]
    omega
  · rw [if_neg h0]
    omega

/-- Witness for C10 at a concrete input: chest 1 at tile (5,0) with no
Rock, unit 0 adjacent at tile (5,1) holding a leftover reservation of 2
Rock on that chest. -/
theorem take_zero_stock_releases_reservation_witness :
    (process_take 0 ⟨176, 48⟩ ⟨[]⟩ ItemKind.Rock 2 1
        [⟨1, rounded_tile_pos_to_world (5, 0), ⟨[]⟩⟩]
        ⟨[(1, [(0, [(ItemKind.Rock, 2)])])]⟩).unit_inv = ⟨[]⟩
    ∧ (process_take 0 ⟨176, 48⟩ ⟨[]⟩ ItemKind.Rock 2 1
        [⟨1, rounded_tile_pos_to_world (5, 0), ⟨[]⟩⟩]
        ⟨[(1, [(0, [(ItemKind.Rock, 2)])])]⟩).providers
      = [⟨1, rounded_tile_pos_to_world (5, 0), ⟨[]⟩⟩]
    ∧ (process_take 0 ⟨176, 48⟩ ⟨[]⟩ ItemKind.Rock 2 1
        [⟨1, rounded_tile_pos_to_world (5, 0), ⟨[]⟩⟩]
        ⟨[(1, [(0, [(ItemKind.Rock, 2)])])]⟩).action = none
    ∧ (process_take 0 ⟨176, 48⟩ ⟨[]⟩ ItemKind.Rock 2 1
        [⟨1, rounded_tile_pos_to_world (5, 0), ⟨[]⟩⟩]
        ⟨[(1, [(0, [(ItemKind.Rock, 2)])])]⟩).reservations.owner_reserved 0 1
          ItemKind.Rock = 0 :=
  take_zero_stock_releases_reservation 0 ⟨176, 48⟩ ⟨[]⟩ ItemKind.Rock 2 1
    [⟨1, rounded_tile_pos_to_world (5, 0), ⟨[]⟩⟩]
    ⟨[(1, [(0, [(ItemKind.Rock, 2)])])]⟩ ⟨1, rounded_tile_pos_to_world (5, 0), ⟨[]⟩⟩
    (by unfold ReservationsWF; decide)
    (by norm_num [List.find?])
    (by norm_num [rounded_tile_pos_to_world, world_pos_to_tile, distSq, TILE_SIZE,
      BONUS_RANGE, UNIT_REACH])
    (by decide)

/-- C7: the spec's example scenario.  Provider chest A (entity 1) at
tile (5,0) holds 1000 Rock; unit 0 at tile (0,0) with an empty
inventory plans a pending `GetItems(Rock, 2)` task: the task becomes
`Planned` with action queue `[MoveTo(A's tile), Take(Rock, 2, A)]` and
`owner_reserved(unit, A, Rock) = 2`.  When the unit is within reach
(here at tile (5.5, 1.5), one tile from A's tile centre (5.5, 0.5)) and
the `Take` executes, the unit holds 2 Rock, chest A holds 998, the
reservation drops to 0 and the action is cleared. -/
theorem get_items_example_scenario :
    (actions_decompose_get_items 0 ⟨0, 0⟩ ⟨[]⟩ [] ItemKind.Rock 2
        [⟨1, rounded_tile_pos_to_world (5, 0), ⟨[(ItemKind.Rock, 1000)]⟩⟩]
        ⟨[]⟩).status = TaskStatus.Planned
    ∧ (actions_decompose_get_items 0 ⟨0, 0⟩ ⟨[]⟩ [] ItemKind.Rock 2
        [⟨1, rounded_tile_pos_to_world (5, 0), ⟨[(ItemKind.Rock, 1000)]⟩⟩]
        ⟨[]⟩).action_queue
      = [Action.MoveTo (world_pos_to_tile (rounded_tile_pos_to_world (5, 0))),
         Action.Take ItemKind.Rock 2 1]
    ∧ (actions_decompose_get_items 0 ⟨0, 0⟩ ⟨[]⟩ [] ItemKind.Rock 2
        [⟨1, rounded_tile_pos_to_world (5, 0), ⟨[(ItemKind.Rock, 1000)]⟩⟩]
        ⟨[]⟩).reservations.owner_reserved 0 1 ItemKind.Rock = 2
    ∧ (process_take 0 ⟨176, 48⟩ ⟨[]⟩ ItemKind.Rock 2 1
        [⟨1, rounded_tile_pos_to_world (5, 0), ⟨[(ItemKind.Rock, 1000)]⟩⟩]
        (actions_decompose_get_items 0 ⟨0, 0⟩ ⟨[]⟩ [] ItemKind.Rock 2
          [⟨1, rounded_tile_pos_to_world (5, 0), ⟨[(ItemKind.Rock, 1000)]⟩⟩]
          ⟨[]⟩).reservations).unit_inv.count ItemKind.Rock = 2
    ∧ ((process_take 0 ⟨176, 48⟩ ⟨[]⟩ ItemKind.Rock 2 1
        [⟨1, rounded_tile_pos_to_world (5, 0), ⟨[(ItemKind.Rock, 1000)]⟩⟩]
        (actions_decompose_get_items 0 ⟨0, 0⟩ ⟨[]⟩ [] ItemKind.Rock 2
          [⟨1, rounded_tile_pos_to_world (5, 0), ⟨[(ItemKind.Rock, 1000)]⟩⟩]
          ⟨[]⟩).reservations).providers.find? (fun p => p.ent == 1)).map
        (fun p => p.inv.count ItemKind.Rock) = some 998
    ∧ (process_take 0 ⟨176, 48⟩ ⟨[]⟩ ItemKind.Rock 2 1
        [⟨1, rounded_tile_pos_to_world (5, 0), ⟨[(ItemKind.Rock, 1000)]⟩⟩]
        (actions_decompose_get_items 0 ⟨0, 0⟩ ⟨[]⟩ [] ItemKind.Rock 2
          [⟨1, rounded_tile_pos_to_world (5, 0), ⟨[(ItemKind.Rock, 1000)]⟩⟩]
          ⟨[]⟩).reservations).reservations.owner_reserved 0 1 ItemKind.Rock = 0
    ∧ (process_take 0 ⟨176, 48⟩ ⟨[]⟩ ItemKind.Rock 2 1
        [⟨1, rounded_tile_pos_to_world (5, 0), ⟨[(ItemKind.Rock, 1000)]⟩⟩]
        (actions_decompose_get_items 0 ⟨0, 0⟩ ⟨[]⟩ [] ItemKind.Rock 2
          [⟨1, rounded_tile_pos_to_world (5, 0), ⟨[(ItemKind.Rock, 1000)]⟩⟩]
          ⟨[]⟩).reservations).action = none := by
  have hplan : actions_decompose_get_items 0 ⟨0, 0⟩ ⟨[]⟩ [] ItemKind.Rock 2
      [⟨1, rounded_tile_pos_to_world (5, 0), ⟨[(ItemKind.Rock, 1000)]⟩⟩] ⟨[]⟩
      = ⟨TaskStatus.Planned,
         [Action.MoveTo (world_pos_to_tile (rounded_tile_pos_to_world (5, 0))),
          Action.Take ItemKind.Rock 2 1],
         ⟨[(1, [(0, [(ItemKind.Rock, 2)])])]⟩⟩ := by
    norm_num [actions_decompose_get_items, find_best_chest, world_pos_to_tile,
      rounded_tile_pos_to_world, distSq, TILE_SIZE, Inventory.count, alGet,
      Reservations.try_reserve, Reservations.total_reserved, Reservations.reserveInsert,
      alUpsert, List.find?]
  have htake : process_take 0 ⟨176, 48⟩ ⟨[]⟩ ItemKind.Rock 2 1
      [⟨1, rounded_tile_pos_to_world (5, 0), ⟨[(ItemKind.Rock, 1000)]⟩⟩]
      ⟨[(1, [(0, [(ItemKind.Rock, 2)])])]⟩
      = ⟨none, ⟨[(ItemKind.Rock, 2)]⟩,
         [⟨1, rounded_tile_pos_to_world (5, 0), ⟨[(ItemKind.Rock, 998)]⟩⟩], ⟨[]⟩⟩ := by
    norm_num [process_take, world_pos_to_tile, rounded_tile_pos_to_world, distSq,
      TILE_SIZE, BONUS_RANGE, UNIT_REACH, Inventory.count, Inventory.add,
      Inventory.remove, alGet, alUpsert, alSet, alRemove, Reservations.owner_reserved,
      Reservations.release, kindRelease, ownerRelease, setProvider, List.find?]
  rw [hplan]
  dsimp only
  rw [htake]
  norm_num [Inventory.count, alGet, Reservations.owner_reserved, List.find?,
    TaskStatus.Planned]

/-- C4 (amended): during `find_path`'s neighbor expansion, a diagonal
step is admitted by the expansion filters exactly when BOTH orthogonal
corner tiles adjacent to the diagonal are passable and the destination
tile is passable — equivalently, it is rejected as soon as at least one
of the two corner tiles is impassable.  (The claim's rule — reject only
when both corners are blocked — is the diagonal rule of the movement
code in `src/units/units.rs`, not of the pathfinder.) -/
theorem diagonal_corner_rule (sm : StructureManager) (cur npos : GridPos)
    (hdiag : is_diagonal cur npos = true) :
    neighbor_filtered sm cur npos = false
      ↔ is_tile_passable (cur.1, npos.2) sm = true
        ∧ is_tile_passable (npos.1, cur.2) sm = true
        ∧ is_tile_passable npos sm = true := by
  unfold neighbor_filtered
  rw [hdiag]
  cases h1 : is_tile_passable (cur.1, npos.2) sm <;>
    cases h2 : is_tile_passable (npos.1, cur.2) sm <;>
      cases h3 : is_tile_passable npos sm <;> simp [h1, h2, h3]

/-- Witness for C4 at a concrete input: the diagonal step from (0,0) to
(1,1) on an empty map is admitted. -/
theorem diagonal_corner_rule_witness :
    neighbor_filtered ⟨[]⟩ (0, 0) (1, 1) = false
      ↔ is_tile_passable (((0, 0) : GridPos).1, ((1, 1) : GridPos).2) ⟨[]⟩ = true
        ∧ is_tile_passable (((1, 1) : GridPos).1, ((0, 0) : GridPos).2) ⟨[]⟩ = true
        ∧ is_tile_passable (1, 1) ⟨[]⟩ = true :=
  diagonal_corner_rule ⟨[]⟩ (0, 0) (1, 1) (by decide)

/-- Counterexample to C4 as stated: with a structure on corner tile
(0,1) only, the step from (0,0) to the passable diagonal tile (1,1) has
one passable corner (1,0) and a passable destination — by the claim it
must be admitted — yet `find_path`'s expansion filters reject it. -/
theorem diagonal_corner_rule_counterexample :
    is_diagonal (0, 0) (1, 1) = true
    ∧ (is_tile_passable ((0 : Int), (1 : Int)) ⟨[(((0 : Int), (1 : Int)), 7)]⟩ = true
        ∨ is_tile_passable ((1 : Int), (0 : Int)) ⟨[(((0 : Int), (1 : Int)), 7)]⟩ = true)
    ∧ is_tile_passable ((1 : Int), (1 : Int)) ⟨[(((0 : Int), (1 : Int)), 7)]⟩ = true
    ∧ neighbor_filtered ⟨[(((0 : Int), (1 : Int)), 7)]⟩ (0, 0) (1, 1) = true := by decide

theorem findSome?_guard_map {α β : Type} (p : β → Bool) (g : α → β) (l : List α) :
    (l.findSome? (fun x => if p (g x) then some (g x) else none)) = (l.map g).find? p := by
  induction l with
  | nil => rfl
  | cons a l ih =>
      by_cases h : p (g a) = true
      · simp [List.findSome?_cons, List.find?_cons, h]
      · simp only [Bool.not_eq_true] at h
        simp [List.findSome?_cons, List.find?_cons, h, ih]

theorem findSome?_map_find? {α β : Type} (p : β → Bool) (f : α → List β) (l : List α) :
    l.findSome? (fun x => (f x).find? p) = ((l.map f).flatten).find? p := by
  induction l with
  | nil => rfl
  | cons a l ih =>
      cases h : (f a).find? p with
      | none => simp [List.findSome?_cons, List.find?_append, h, ih]
      | some b => simp [List.findSome?_cons, List.find?_append, h]

theorem find_nearest_eq_find? (target start : GridPos) (sm : StructureManager) :
    find_nearest_passable_tile target start sm
      = ((([1, 2, 3, 4, 5] : List Int).map (fun radius =>
            (nearest_directions ((target.1 - start.1).sign, (target.2 - start.2).sign)).map
              (fun dir => ((target.1 + dir.1 * radius, target.2 + dir.2 * radius) :
                GridPos)))).flatten).find? (fun c => is_tile_passable c sm) := by
  unfold find_nearest_passable_tile
  rw [← findSome?_map_find?]
  dsimp only
  congr 1
  funext radius
  exact findSome?_guard_map (fun c => is_tile_passable c sm)
    (fun dir : GridPos => ((target.1 + dir.1 * radius, target.2 + dir.2 * radius) : GridPos)) _

theorem spec_candidates_eq (target start : GridPos) :
    spec_candidate_tiles target start
      = (([1, 2, 3, 4, 5] : List Int).map (fun radius =>
          (nearest_directions ((target.1 - start.1).sign, (target.2 - start.2).sign)).map
            (fun dir => ((target.1 + dir.1 * radius, target.2 + dir.2 * radius) :
              GridPos)))).flatten := by
  unfold spec_candidate_tiles nearest_directions
  have hne : ((((target.1 - start.1).sign, (target.2 - start.2).sign) :
        GridPos) ≠ ((0, 0) : GridPos))
      ↔ ((target.1 - start.1).sign ≠ 0 ∨ (target.2 - start.2).sign ≠ 0) := by
    constructor
    · intro h
      by_contra hc
      push_neg at hc
      exact h (by rw [hc.1, hc.2])
    · intro h hc
      rcases h with h | h
      · exact h (congrArg Prod.fst hc)
      · exact h (congrArg Prod.snd hc)
  by_cases h1 : (target.1 - start.1).sign = 0 <;>
    by_cases h2 : (target.2 - start.2).sign = 0 <;>
      simp [h1, h2, hne]

/-- C6: when the goal tile handed to `find_path` is impassable, the
effective goal (the one the search runs toward, see `actual_end_grid`
in `find_path_grid_run`) is the first passable tile of the declarative
candidate list `spec_candidate_tiles` — for radii 1 through 5, at each
radius the offsets `goal + direction * radius` with the directions in
priority order: directly opposite the approach direction from start to
goal, then the orthogonal directions perpendicular to the nonzero
components of the approach axis, then the four diagonals, then the
approach direction itself last — and the start tile itself when no
candidate in the list is passable. -/
theorem goal_substitution (start_grid end_grid : GridPos) (sm : StructureManager)
    (himp : is_tile_passable end_grid sm = false) :
    actual_end_grid start_grid end_grid sm
      = ((spec_candidate_tiles end_grid start_grid).find?
          (fun c => is_tile_passable c sm)).getD start_grid := by
  unfold actual_end_grid
  rw [himp]
  simp only [Bool.false_eq_true, not_false_iff, if_true]
  rw [find_nearest_eq_find?, spec_candidates_eq]

/-- Witness for C6 at a concrete input: the goal (3,0) is walled; the
approach from (0,0) is due east, so the first candidate is the opposite
offset (2,0), which is passable and becomes the effective goal. -/
theorem goal_substitution_witness :
    actual_end_grid (0, 0) (3, 0) ⟨[(((3 : Int), (0 : Int)), 7)]⟩
      = ((spec_candidate_tiles (3, 0) (0, 0)).find?
          (fun c => is_tile_passable c ⟨[(((3 : Int), (0 : Int)), 7)]⟩)).getD (0, 0) :=
  goal_substitution (0, 0) (3, 0) ⟨[(((3 : Int), (0 : Int)), 7)]⟩ (by decide)

theorem alGet_append_single {κ ν : Type} [DecidableEq κ] (l : List (κ × ν)) (k k' : κ)
    (v : ν) :
    alGet (l ++ [(k, v)]) k' =
      match alGet l k' with
      | some w => some w
      | none => if k = k' then some v else none := by
  induction l with
  | nil => simp [alGet]
  | cons p rest ih =>
      obtain ⟨k₀, v₀⟩ := p
      by_cases h0 : k₀ = k'
      · simp [alGet, h0]
      · simp only [List.cons_append, alGet, if_neg h0]
        exact ih

theorem alGet_isSome_of_mem_keys {κ ν : Type} [DecidableEq κ] (l : List (κ × ν)) (k : κ)
    (h : k ∈ l.map Prod.fst) : (alGet l k).isSome := by
  induction l with
  | nil => simp at h
  | cons p rest ih =>
      obtain ⟨k₀, v₀⟩ := p
      by_cases h0 : k₀ = k
      · simp [alGet, h0]
      · simp only [List.map_cons, List.mem_cons] at h
        rcases h with h | h
        · exact absurd h.symm h0
        · simp only [alGet, if_neg h0]
          exact ih h

theorem not_mem_keys_of_alGet_eq_none {κ ν : Type} [DecidableEq κ] (l : List (κ × ν))
    (k : κ) (h : alGet l k = none) : k ∉ l.map Prod.fst := by
  intro hmem
  have := alGet_isSome_of_mem_keys l k hmem
  rw [h] at this
  simp at this

theorem alGet_of_mem_nodup {κ ν : Type} [DecidableEq κ] (l : List (κ × ν)) (k : κ) (v : ν)
    (hmem : (k, v) ∈ l) (hnd : (l.map Prod.fst).Nodup) : alGet l k = some v := by
  induction l with
  | nil => simp at hmem
  | cons p rest ih =>
      obtain ⟨k₀, v₀⟩ := p
      simp only [List.map_cons, List.nodup_cons] at hnd
      rcases List.mem_cons.mp hmem with h | h
      · have h1 : k = k₀ := congrArg Prod.fst h
        have h2 : v = v₀ := congrArg Prod.snd h
        simp only [alGet, if_pos h1.symm]
        rw [h2]
      · have hk : ¬ k₀ = k := by
          intro he
          exact hnd.1 (he ▸ (List.mem_map.mpr ⟨(k, v), h, rfl⟩))
        simp only [alGet, if_neg hk]
        exact ih h hnd.2

theorem mem_alSet_pair {κ ν : Type} [DecidableEq κ] (l : List (κ × ν)) (k : κ) (w : ν)
    (p : κ × ν) : p ∈ alSet l k w → p ∈ l ∨ p = (k, w) := by
  induction l with
  | nil => intro hp; simp [alSet] at hp
  | cons q rest ih =>
      obtain ⟨k₀, v₀⟩ := q
      by_cases h0 : k₀ = k
      · subst h0
        intro hp
        rw [alSet, if_pos rfl, List.mem_cons] at hp
        rcases hp with hp1 | hp1
        · right; rw [hp1]
        · left; exact List.mem_cons_of_mem _ hp1
      · intro hp
        rw [alSet, if_neg h0, List.mem_cons] at hp
        rcases hp with hp1 | hp1
        · left; rw [hp1]; exact List.mem_cons_self _ _
        · rcases ih hp1 with h | h
          · left; exact List.mem_cons_of_mem _ h
          · right; exact h

theorem getD_mem_cons (o : PathNode) (os : List PathNode) (i : Nat) :
    (o :: os).getD i o ∈ o :: os := by
  by_cases h : i < (o :: os).length
  · rw [List.getD_eq_getElem _ _ h]
    exact List.getElem_mem h
  · rw [List.getD_eq_default]
    · exact List.mem_cons_self _ _
    · omega

theorem get_neighbors_spec (p : GridPos) :
    ∀ x ∈ get_neighbors p, cheb_adjacent p x ∧ x ≠ p := by
  intro x hx
  simp only [get_neighbors, List.map_cons, List.map_nil, List.mem_cons,
    List.not_mem_nil, or_false] at hx
  have hadj : ∀ a b : Int, (a = -1 ∨ a = 0 ∨ a = 1) → (b = -1 ∨ b = 0 ∨ b = 1) →
      (a ≠ 0 ∨ b ≠ 0) → (max (p.1 - (p.1 + a)).natAbs (p.2 - (p.2 + b)).natAbs = 1
        ∧ ((p.1 + a, p.2 + b) : GridPos) ≠ p) := by
    intro a b ha hb hab
    constructor
    · rcases ha with h | h | h <;> rcases hb with h' | h' | h' <;>
        subst h <;> subst h' <;> simp_all
    · intro he
      rw [Prod.ext_iff] at he
      simp only at he
      rcases hab with h | h
      · exact h (by omega)
      · exact h (by omega)
  rcases hx with h | h | h | h | h | h | h | h <;> subst h <;>
    exact ⟨(hadj _ _ (by norm_num) (by norm_num) (by norm_num)).1,
      (hadj _ _ (by norm_num) (by norm_num) (by norm_num)).2⟩

theorem step_neighbor_inv (sm : StructureManager) (goal start : GridPos) (cur : PathNode)
    (acc : List PathNode × List (GridPos × PathNode)) (npos : GridPos)
    (hadj : cheb_adjacent cur.pos npos) (hne : npos ≠ cur.pos)
    (hinv : NodesInv sm start acc.2) (hopen : OpenInv acc.1 acc.2)
    (hcur : ∃ n, alGet acc.2 cur.pos = some n ∧ n.g_cost ≤ cur.g_cost) :
    NodesInv sm start (step_neighbor sm goal cur acc npos).2
    ∧ OpenInv (step_neighbor sm goal cur acc npos).1 (step_neighbor sm goal cur acc npos).2
    ∧ (∃ n, alGet (step_neighbor sm goal cur acc npos).2 cur.pos = some n
        ∧ n.g_cost ≤ cur.g_cost) := by
  obtain ⟨hnd, hposf, ⟨sn, hsn, hsnp, hsng⟩, hpar, hnone, hpassf⟩ := hinv
  obtain ⟨cn, hcn, hcng⟩ := hcur
  unfold step_neighbor
  by_cases hf : neighbor_filtered sm cur.pos npos = true
  · rw [if_pos hf]
    exact ⟨⟨hnd, hposf, ⟨sn, hsn, hsnp, hsng⟩, hpar, hnone, hpassf⟩, hopen, ⟨cn, hcn, hcng⟩⟩
  · rw [if_neg hf]
    have hf0 : neighbor_filtered sm cur.pos npos = false := by
      simpa using hf
    unfold neighbor_filtered at hf0
    obtain ⟨hf1, hf2⟩ := Bool.or_eq_false_iff.mp hf0
    have hnpass : is_tile_passable npos sm = true := by
      revert hf2
      cases is_tile_passable npos sm <;> simp
    dsimp only
    have hmc : 1000 ≤ (if is_diagonal cur.pos npos = true then (1414 : Nat) else 1000) := by
      split <;> omega
    cases halg : alGet acc.2 npos with
    | some existing =>
        dsimp only
        by_cases himp :
            cur.g_cost + (if is_diagonal cur.pos npos = true then (1414 : Nat) else 1000)
              < existing.g_cost
        · rw [if_pos himp]
          set u : PathNode := ⟨npos, cur.g_cost +
            (if is_diagonal cur.pos npos = true then (1414 : Nat) else 1000),
            existing.h_sq, some cur.pos⟩ with hu
          have hug : u.g_cost = cur.g_cost +
              (if is_diagonal cur.pos npos = true then (1414 : Nat) else 1000) := rfl
          have hupos : u.pos = npos := rfl
          have hupar : u.parent = some cur.pos := rfl
          have hlook : alGet (alSet acc.2 npos u) npos = some u := by
            rw [alGet_alSet]
            rw [if_pos ⟨rfl, by rw [halg]; rfl⟩]
          have hlook_other : ∀ k, npos ≠ k → alGet (alSet acc.2 npos u) k = alGet acc.2 k := by
            intro k hk
            rw [alGet_alSet, if_neg (fun hc => hk hc.1)]
          have hnstart : npos ≠ start := by
            intro he
            rw [he, hsn] at halg
            have hex : existing = sn := Option.some_inj.mp halg.symm
            rw [hex, hsng] at himp
            omega
          refine ⟨⟨?_, ?_, ?_, ?_, ?_, ?_⟩, ?_, ?_⟩
          · rw [map_fst_alSet]
            exact hnd
          · intro p hp
            rcases mem_alSet_pair _ _ _ p hp with hmem | heq
            · exact hposf p hmem
            · rw [heq]
          · refine ⟨sn, ?_, hsnp, hsng⟩
            rw [hlook_other start hnstart]
            exact hsn
          · intro p hp q hq
            rcases mem_alSet_pair _ _ _ p hp with hmem | heq
            · obtain ⟨pn, hpn, hpng, hpadj, hpstart⟩ := hpar p hmem q hq
              by_cases hqn : npos = q
              · have hex : pn = existing := by
                  rw [← hqn, halg] at hpn
                  exact (Option.some_inj.mp hpn).symm
                refine ⟨u, ?_, ?_, hpadj, hpstart⟩
                · rw [← hqn]
                  exact hlook
                · rw [hex] at hpng
                  rw [hug]
                  omega
              · refine ⟨pn, ?_, hpng, hpadj, hpstart⟩
                rw [hlook_other q hqn]
                exact hpn
            · rw [heq] at hq ⊢
              have hq' : cur.pos = q := by simpa using hq
              rw [← hq']
              refine ⟨cn, ?_, ?_, hadj, hnstart⟩
              · rw [hlook_other cur.pos hne]
                exact hcn
              · rw [hug]
                omega
          · intro p hp hpn
            rcases mem_alSet_pair _ _ _ p hp with hmem | heq
            · exact hnone p hmem hpn
            · rw [heq] at hpn
              simp [hupar] at hpn
          · intro p hp hps
            rcases mem_alSet_pair _ _ _ p hp with hmem | heq
            · exact hpassf p hmem hps
            · rw [heq]
              exact hnpass
          · intro o ho
            rcases List.mem_append.mp ho with ho1 | ho2
            · obtain ⟨n₀, hn₀, hn₀g⟩ := hopen o ho1
              by_cases hon : npos = o.pos
              · refine ⟨u, ?_, ?_⟩
                · rw [← hon]
                  exact hlook
                · have hex : n₀ = existing := by
                    rw [← hon, halg] at hn₀
                    exact (Option.some_inj.mp hn₀).symm
                  rw [hug]
                  rw [hex] at hn₀g
                  omega
              · refine ⟨n₀, ?_, hn₀g⟩
                rw [hlook_other o.pos hon]
                exact hn₀
            · have ho' : o = u := by simpa using ho2
              rw [ho', hupos]
              exact ⟨u, hlook, le_refl _⟩
          · refine ⟨cn, ?_, hcng⟩
            rw [hlook_other cur.pos hne]
            exact hcn
        · rw [if_neg himp]
          exact ⟨⟨hnd, hposf, ⟨sn, hsn, hsnp, hsng⟩, hpar, hnone, hpassf⟩, hopen,
            ⟨cn, hcn, hcng⟩⟩
    | none =>
        dsimp only
        set nn : PathNode := ⟨npos, cur.g_cost +
          (if is_diagonal cur.pos npos = true then (1414 : Nat) else 1000),
          heuristic_sq npos goal, some cur.pos⟩ with hnn
        have hng : nn.g_cost = cur.g_cost +
            (if is_diagonal cur.pos npos = true then (1414 : Nat) else 1000) := rfl
        have hnpos : nn.pos = npos := rfl
        have hnpar : nn.parent = some cur.pos := rfl
        have hnstart : npos ≠ start := by
          intro he
          rw [he, hsn] at halg
          simp at halg
        have hnotmem : npos ∉ acc.2.map Prod.fst := not_mem_keys_of_alGet_eq_none _ _ halg
        have hlook : alGet (acc.2 ++ [(npos, nn)]) npos = some nn := by
          rw [alGet_append_single, halg]
          simp
        have hlook_some : ∀ k w, alGet acc.2 k = some w →
            alGet (acc.2 ++ [(npos, nn)]) k = some w := by
          intro k w hw
          rw [alGet_append_single, hw]
        refine ⟨⟨?_, ?_, ?_, ?_, ?_, ?_⟩, ?_, ?_⟩
        · rw [List.map_append]
          simp only [List.map_cons, List.map_nil]
          rw [List.nodup_append]
          refine ⟨hnd, List.nodup_singleton _, ?_⟩
          intro a ha hb
          simp only [List.mem_singleton] at hb
          rw [hb] at ha
          exact hnotmem ha
        · intro p hp
          rcases List.mem_append.mp hp with hmem | hsing
          · exact hposf p hmem
          · have hp' : p = (npos, nn) := by simpa using hsing
            rw [hp']
        · refine ⟨sn, hlook_some start sn hsn, hsnp, hsng⟩
        · intro p hp q hq
          rcases List.mem_append.mp hp with hmem | hsing
          · obtain ⟨pn, hpn, hpng, hpadj, hpstart⟩ := hpar p hmem q hq
            exact ⟨pn, hlook_some q pn hpn, hpng, hpadj, hpstart⟩
          · have hp' : p = (npos, nn) := by simpa using hsing
            rw [hp'] at hq ⊢
            have hq' : cur.pos = q := by simpa [hnpar] using hq
            rw [← hq']
            refine ⟨cn, hlook_some cur.pos cn hcn, ?_, hadj, hnstart⟩
            rw [hng]
            omega
        · intro p hp hpn
          rcases List.mem_append.mp hp with hmem | hsing
          · exact hnone p hmem hpn
          · have hp' : p = (npos, nn) := by simpa using hsing
            rw [hp'] at hpn
            simp [hnpar] at hpn
        · intro p hp hps
          rcases List.mem_append.mp hp with hmem | hsing
          · exact hpassf p hmem hps
          · have hp' : p = (npos, nn) := by simpa using hsing
            rw [hp']
            exact hnpass
        · intro o ho
          rcases List.mem_append.mp ho with ho1 | ho2
          · obtain ⟨n₀, hn₀, hn₀g⟩ := hopen o ho1
            exact ⟨n₀, hlook_some o.pos n₀ hn₀, hn₀g⟩
          · have ho' : o = nn := by simpa using ho2
            rw [ho', hnpos]
            exact ⟨nn, hlook, le_refl _⟩
        · exact ⟨cn, hlook_some cur.pos cn hcn, hcng⟩

theorem foldl_step_neighbor_inv (sm : StructureManager) (goal start : GridPos)
    (cur : PathNode) :
    ∀ (l : List GridPos) (acc : List PathNode × List (GridPos × PathNode)),
      (∀ x ∈ l, cheb_adjacent cur.pos x ∧ x ≠ cur.pos) →
      NodesInv sm start acc.2 → OpenInv acc.1 acc.2 →
      (∃ n, alGet acc.2 cur.pos = some n ∧ n.g_cost ≤ cur.g_cost) →
      NodesInv sm start (l.foldl (step_neighbor sm goal cur) acc).2
      ∧ OpenInv (l.foldl (step_neighbor sm goal cur) acc).1
          (l.foldl (step_neighbor sm goal cur) acc).2 := by
  intro l
  induction l with
  | nil =>
      intro acc _ h1 h2 _
      exact ⟨h1, h2⟩
  | cons x xs ih =>
      intro acc hl h1 h2 h3
      obtain ⟨hadj, hne⟩ := hl x (List.mem_cons_self _ _)
      obtain ⟨h1s, h2s, h3s⟩ := step_neighbor_inv sm goal start cur acc x hadj hne h1 h2 h3
      simp only [List.foldl_cons]
      exact ih (step_neighbor sm goal cur acc x)
        (fun y hy => hl y (List.mem_cons_of_mem _ hy)) h1s h2s h3s

theorem astar_loop_inv (sm : StructureManager) (goal start : GridPos)
    (sel : List PathNode → Nat) :
    ∀ (fuel : Nat) (open_set : List PathNode) (all_nodes : List (GridPos × PathNode))
      (processed : Nat),
      NodesInv sm start all_nodes → OpenInv open_set all_nodes →
      NodesInv sm start (astar_loop sm goal sel fuel open_set all_nodes processed).2.1
      ∧ (astar_loop sm goal sel fuel open_set all_nodes processed).2.2 ≤ processed + fuel
      ∧ ((astar_loop sm goal sel fuel open_set all_nodes processed).1
            = SearchOutcome.found →
          (alGet (astar_loop sm goal sel fuel open_set all_nodes processed).2.1
            goal).isSome) := by
  intro fuel
  induction fuel with
  | zero =>
      intro open_set all_nodes processed h1 h2
      cases open_set with
      | nil =>
          simp only [astar_loop]
          exact ⟨h1, Nat.le_refl _, by intro h; cases h⟩
      | cons o os =>
          simp only [astar_loop]
          exact ⟨h1, Nat.le_refl _, by intro h; cases h⟩
  | succ fuel ih =>
      intro open_set all_nodes processed h1 h2
      cases open_set with
      | nil =>
          simp only [astar_loop]
          exact ⟨h1, by omega, by intro h; cases h⟩
      | cons o os =>
          simp only [astar_loop]
          by_cases hg : ((o :: os).getD (sel (o :: os) % (o :: os).length) o).pos = goal
          · rw [if_pos hg]
            refine ⟨h1, by dsimp only; omega, ?_⟩
            intro _
            obtain ⟨n, hn, _⟩ :=
              h2 _ (getD_mem_cons o os (sel (o :: os) % (o :: os).length))
            rw [hg] at hn
            exact Option.isSome_iff_exists.mpr ⟨n, hn⟩
          · rw [if_neg hg]
            have hmem := getD_mem_cons o os (sel (o :: os) % (o :: os).length)
            obtain ⟨cn, hcn, hcng⟩ := h2 _ hmem
            have hrest :
                OpenInv ((o :: os).eraseIdx (sel (o :: os) % (o :: os).length))
                  all_nodes := by
              intro x hx
              exact h2 x ((List.eraseIdx_sublist _ _).mem hx)
            have hfold := foldl_step_neighbor_inv sm goal start
              ((o :: os).getD (sel (o :: os) % (o :: os).length) o)
              (get_neighbors ((o :: os).getD (sel (o :: os) % (o :: os).length) o).pos)
              ((o :: os).eraseIdx (sel (o :: os) % (o :: os).length), all_nodes)
              (get_neighbors_spec _) h1 hrest ⟨cn, hcn, hcng⟩
            obtain ⟨hA, hB, hC⟩ := ih _ _ (processed + 1) hfold.1 hfold.2
            exact ⟨hA, by omega, hC⟩

theorem min_by_foldl_spec :
    ∀ (l : List (GridPos × PathNode)) (b b' : PathNode),
      l.foldl
        (fun best p =>
          match best with
          | none => some p.2
          | some b => if p.2.h_sq < b.h_sq then some p.2 else some b)
        (some b) = some b' →
      (b' = b ∨ ∃ p ∈ l, p.2 = b') ∧ b'.h_sq ≤ b.h_sq ∧ ∀ p ∈ l, b'.h_sq ≤ p.2.h_sq := by
  intro l
  induction l with
  | nil =>
      intro b b' h
      simp only [List.foldl_nil, Option.some_inj] at h
      subst h
      exact ⟨Or.inl rfl, Nat.le_refl _, by intro p hp; cases hp⟩
  | cons q qs ih =>
      intro b b' h
      simp only [List.foldl_cons] at h
      by_cases hc : q.2.h_sq < b.h_sq
      · rw [if_pos hc] at h
        obtain ⟨h1, h2, h3⟩ := ih q.2 b' h
        refine ⟨?_, by omega, ?_⟩
        · rcases h1 with h1 | ⟨p, hp, hpe⟩
          · exact Or.inr ⟨q, List.mem_cons_self _ _, h1.symm⟩
          · exact Or.inr ⟨p, List.mem_cons_of_mem _ hp, hpe⟩
        · intro p hp
          rcases List.mem_cons.mp hp with hp | hp
          · rw [hp]; exact h2
          · exact h3 p hp
      · rw [if_neg hc] at h
        obtain ⟨h1, h2, h3⟩ := ih b b' h
        refine ⟨?_, h2, ?_⟩
        · rcases h1 with h1 | ⟨p, hp, hpe⟩
          · exact Or.inl h1
          · exact Or.inr ⟨p, List.mem_cons_of_mem _ hp, hpe⟩
        · intro p hp
          rcases List.mem_cons.mp hp with hp | hp
          · rw [hp]; omega
          · exact h3 p hp

theorem min_by_foldl_isSome :
    ∀ (l : List (GridPos × PathNode)) (b : PathNode),
      (l.foldl
        (fun best p =>
          match best with
          | none => some p.2
          | some b => if p.2.h_sq < b.h_sq then some p.2 else some b)
        (some b)).isSome := by
  intro l
  induction l with
  | nil => intro b; simp
  | cons q qs ih =>
      intro b
      simp only [List.foldl_cons]
      by_cases hc : q.2.h_sq < b.h_sq
      · rw [if_pos hc]; exact ih q.2
      · rw [if_neg hc]; exact ih b

theorem min_by_hsq_spec (l : List (GridPos × PathNode)) (b' : PathNode)
    (h : min_by_hsq l = some b') :
    (∃ p ∈ l, p.2 = b') ∧ ∀ p ∈ l, b'.h_sq ≤ p.2.h_sq := by
  cases l with
  | nil => simp [min_by_hsq] at h
  | cons q qs =>
      unfold min_by_hsq at h
      rw [List.foldl_cons] at h
      obtain ⟨h1, h2, h3⟩ := min_by_foldl_spec qs q.2 b' h
      refine ⟨?_, ?_⟩
      · rcases h1 with h1 | ⟨p, hp, hpe⟩
        · exact ⟨q, List.mem_cons_self _ _, h1.symm⟩
        · exact ⟨p, List.mem_cons_of_mem _ hp, hpe⟩
      · intro p hp
        rcases List.mem_cons.mp hp with hp | hp
        · rw [hp]; exact h2
        · exact h3 p hp

theorem min_by_hsq_isSome (q : GridPos × PathNode) (qs : List (GridPos × PathNode)) :
    (min_by_hsq (q :: qs)).isSome := by
  unfold min_by_hsq
  rw [List.foldl_cons]
  exact min_by_foldl_isSome qs q.2

theorem filter_length_lt {α : Type} (l : List α) (p q : α → Bool)
    (himp : ∀ a, p a = true → q a = true) (x : α) (hx : x ∈ l)
    (hqx : q x = true) (hpx : p x = false) :
    (l.filter p).length < (l.filter q).length := by
  have hsub := List.monotone_filter_right l himp
  rcases Nat.lt_or_ge (l.filter p).length (l.filter q).length with h | h
  · exact h
  · exfalso
    have hlen : (l.filter p).length = (l.filter q).length :=
      Nat.le_antisymm hsub.length_le h
    have heq := hsub.eq_of_length hlen
    have hxq : x ∈ l.filter q := List.mem_filter.mpr ⟨hx, hqx⟩
    rw [← heq] at hxq
    have hc := (List.mem_filter.mp hxq).2
    rw [hpx] at hc
    cases hc

theorem reconstruct_path_spec (sm : StructureManager) (start : GridPos)
    (all_nodes : List (GridPos × PathNode)) (hinv : NodesInv sm start all_nodes) :
    ∀ (fuel : Nat) (cur : GridPos) (n : PathNode),
      alGet all_nodes cur = some n →
      (all_nodes.filter (fun p => p.2.g_cost < n.g_cost)).length < fuel →
      (reconstruct_path all_nodes fuel cur).head? = some start
      ∧ (reconstruct_path all_nodes fuel cur).getLast? = some cur
      ∧ List.Chain' cheb_adjacent (reconstruct_path all_nodes fuel cur)
      ∧ ∀ x ∈ reconstruct_path all_nodes fuel cur,
          x ≠ start → is_tile_passable x sm = true := by
  obtain ⟨hnd, hposf, hstartn, hpar, hnone, hpassf⟩ := hinv
  intro fuel
  induction fuel with
  | zero => intro cur n _ hlt; omega
  | succ fuel ih =>
      intro cur n hcur hlt
      have hmem : (cur, n) ∈ all_nodes := alGet_mem _ _ _ hcur
      have hpos : n.pos = cur := hposf _ hmem
      cases hp : n.parent with
      | none =>
          have hcs : cur = start := hnone _ hmem hp
          have hres : reconstruct_path all_nodes (fuel + 1) cur = [n.pos] := by
            simp only [reconstruct_path, hcur, hp]
          rw [hres, hpos]
          refine ⟨by simp [hcs], rfl, List.chain'_singleton _, ?_⟩
          intro x hx hxs
          rw [List.mem_singleton] at hx
          rw [hx, hcs] at hxs
          exact absurd rfl hxs
      | some q =>
          obtain ⟨pn, hq, hgl, hadj, hnstart⟩ :=
            hpar _ hmem q (by rw [Option.mem_def, hp])
          have hgl2 : pn.g_cost + 1000 ≤ n.g_cost := hgl
          have hqmem : (q, pn) ∈ all_nodes := alGet_mem _ _ _ hq
          have hstep :
              (all_nodes.filter (fun p => p.2.g_cost < pn.g_cost)).length
                < (all_nodes.filter (fun p => p.2.g_cost < n.g_cost)).length := by
            refine filter_length_lt all_nodes _ _ ?_ (q, pn) hqmem ?_ ?_
            · intro a ha
              simp only [decide_eq_true_eq] at ha ⊢
              omega
            · simp only [decide_eq_true_eq]
              omega
            · simp
          obtain ⟨ih1, ih2, ih3, ih4⟩ := ih q pn hq (by omega)
          have hres : reconstruct_path all_nodes (fuel + 1) cur
              = reconstruct_path all_nodes fuel q ++ [n.pos] := by
            simp only [reconstruct_path, hcur, hp]
          rw [hres, hpos]
          refine ⟨?_, List.getLast?_concat _, ?_, ?_⟩
          · rw [List.head?_append, ih1]
            rfl
          · rw [List.chain'_append]
            refine ⟨ih3, List.chain'_singleton _, ?_⟩
            intro a ha b hb
            rw [ih2, Option.mem_def, Option.some_inj] at ha
            simp only [List.head?_cons, Option.mem_def, Option.some_inj] at hb
            rw [← ha, ← hb]
            exact hadj
          · intro x hx hxs
            rcases List.mem_append.mp hx with hx | hx
            · exact ih4 x hx hxs
            · rw [List.mem_singleton] at hx
              rw [hx]
              exact hpassf _ hmem hnstart

theorem init_NodesInv (sm : StructureManager) (sg : GridPos) (hsq : Nat) :
    NodesInv sm sg [(sg, ⟨sg, 0, hsq, none⟩)] := by
  refine ⟨by simp, ?_, ⟨⟨sg, 0, hsq, none⟩, by simp [alGet], rfl, rfl⟩, ?_, ?_, ?_⟩
  · intro p hp
    rw [List.mem_singleton] at hp
    rw [hp]
  · intro p hp q hq
    rw [List.mem_singleton] at hp
    rw [hp] at hq
    simp only [Option.mem_def] at hq
    cases hq
  · intro p hp _
    rw [List.mem_singleton] at hp
    rw [hp]
  · intro p hp hps
    rw [List.mem_singleton] at hp
    rw [hp] at hps
    exact absurd rfl hps

theorem init_OpenInv (sg : GridPos) (hsq : Nat) :
    OpenInv [⟨sg, 0, hsq, none⟩] [(sg, (⟨sg, 0, hsq, none⟩ : PathNode))] := by
  intro o ho
  rw [List.mem_singleton] at ho
  rw [ho]
  exact ⟨⟨sg, 0, hsq, none⟩, by simp [alGet], Nat.le_refl _⟩

theorem find_path_run_result_spec (sel : List PathNode → Nat) (start_pos end_pos : Vec2)
    (sm : StructureManager) (gpath : List GridPos)
    (hg : (find_path_run sel start_pos end_pos sm).result = some gpath) :
    gpath.head? = some (tile_pos_to_rounded_tile start_pos)
    ∧ List.Chain' cheb_adjacent gpath
    ∧ ∀ x ∈ gpath, x ≠ tile_pos_to_rounded_tile start_pos →
        is_tile_passable x sm = true := by
  simp only [find_path_run, find_path_grid_run] at hg
  obtain ⟨hIN, hPLE, hFound⟩ := astar_loop_inv sm
    (actual_end_grid (tile_pos_to_rounded_tile start_pos)
      (tile_pos_to_rounded_tile end_pos) sm)
    (tile_pos_to_rounded_tile start_pos) sel
    (max_expansions (tile_pos_to_rounded_tile start_pos)
      (actual_end_grid (tile_pos_to_rounded_tile start_pos)
        (tile_pos_to_rounded_tile end_pos) sm))
    [⟨tile_pos_to_rounded_tile start_pos, 0,
      heuristic_sq (tile_pos_to_rounded_tile start_pos)
        (actual_end_grid (tile_pos_to_rounded_tile start_pos)
          (tile_pos_to_rounded_tile end_pos) sm), none⟩]
    [(tile_pos_to_rounded_tile start_pos,
      ⟨tile_pos_to_rounded_tile start_pos, 0,
        heuristic_sq (tile_pos_to_rounded_tile start_pos)
          (actual_end_grid (tile_pos_to_rounded_tile start_pos)
            (tile_pos_to_rounded_tile end_pos) sm), none⟩)]
    0 (init_NodesInv sm _ _) (init_OpenInv _ _)
  cases ho : (astar_loop sm
      (actual_end_grid (tile_pos_to_rounded_tile start_pos)
        (tile_pos_to_rounded_tile end_pos) sm) sel
      (max_expansions (tile_pos_to_rounded_tile start_pos)
        (actual_end_grid (tile_pos_to_rounded_tile start_pos)
          (tile_pos_to_rounded_tile end_pos) sm))
      [⟨tile_pos_to_rounded_tile start_pos, 0,
        heuristic_sq (tile_pos_to_rounded_tile start_pos)
          (actual_end_grid (tile_pos_to_rounded_tile start_pos)
            (tile_pos_to_rounded_tile end_pos) sm), none⟩]
      [(tile_pos_to_rounded_tile start_pos,
        ⟨tile_pos_to_rounded_tile start_pos, 0,
          heuristic_sq (tile_pos_to_rounded_tile start_pos)
            (actual_end_grid (tile_pos_to_rounded_tile start_pos)
              (tile_pos_to_rounded_tile end_pos) sm), none⟩)]
      0).1 with
  | found =>
      rw [ho] at hFound hg
      dsimp only at hg
      obtain ⟨gn, hgn⟩ := Option.isSome_iff_exists.mp (hFound rfl)
      obtain ⟨hH, hL, hChain, hPass⟩ := reconstruct_path_spec sm _ _ hIN _ _ gn hgn
        (Nat.lt_succ_of_le (List.length_filter_le _ _))
      rw [Option.some_inj] at hg
      rw [hg] at hH hChain hPass
      exact ⟨hH, hChain, hPass⟩
  | budgetExceeded =>
      rw [ho] at hg
      dsimp only at hg
      cases hm : min_by_hsq (astar_loop sm
          (actual_end_grid (tile_pos_to_rounded_tile start_pos)
            (tile_pos_to_rounded_tile end_pos) sm) sel
          (max_expansions (tile_pos_to_rounded_tile start_pos)
            (actual_end_grid (tile_pos_to_rounded_tile start_pos)
              (tile_pos_to_rounded_tile end_pos) sm))
          [⟨tile_pos_to_rounded_tile start_pos, 0,
            heuristic_sq (tile_pos_to_rounded_tile start_pos)
              (actual_end_grid (tile_pos_to_rounded_tile start_pos)
                (tile_pos_to_rounded_tile end_pos) sm), none⟩]
          [(tile_pos_to_rounded_tile start_pos,
            ⟨tile_pos_to_rounded_tile start_pos, 0,
              heuristic_sq (tile_pos_to_rounded_tile start_pos)
                (actual_end_grid (tile_pos_to_rounded_tile start_pos)
                  (tile_pos_to_rounded_tile end_pos) sm), none⟩)]
          0).2.1 with
      | none =>
          rw [hm] at hg
          cases hg
      | some best =>
          rw [hm] at hg
          dsimp only at hg
          obtain ⟨⟨p, hpmem, hpb⟩, _⟩ := min_by_hsq_spec _ _ hm
          have hINnd := hIN.1
          have hINpos := hIN.2.1
          have hbp : best.pos = p.1 := by
            rw [← hpb]
            exact hINpos p hpmem
          have hbm : (best.pos, best) ∈ (astar_loop sm
              (actual_end_grid (tile_pos_to_rounded_tile start_pos)
                (tile_pos_to_rounded_tile end_pos) sm) sel
              (max_expansions (tile_pos_to_rounded_tile start_pos)
                (actual_end_grid (tile_pos_to_rounded_tile start_pos)
                  (tile_pos_to_rounded_tile end_pos) sm))
              [⟨tile_pos_to_rounded_tile start_pos, 0,
                heuristic_sq (tile_pos_to_rounded_tile start_pos)
                  (actual_end_grid (tile_pos_to_rounded_tile start_pos)
                    (tile_pos_to_rounded_tile end_pos) sm), none⟩]
              [(tile_pos_to_rounded_tile start_pos,
                ⟨tile_pos_to_rounded_tile start_pos, 0,
                  heuristic_sq (tile_pos_to_rounded_tile start_pos)
                    (actual_end_grid (tile_pos_to_rounded_tile start_pos)
                      (tile_pos_to_rounded_tile end_pos) sm), none⟩)]
              0).2.1 := by
            rw [hbp, ← hpb]
            exact hpmem
          have hbget := alGet_of_mem_nodup _ _ _ hbm hINnd
          obtain ⟨hH, hL, hChain, hPass⟩ := reconstruct_path_spec sm _ _ hIN
            _ _ best hbget (Nat.lt_succ_of_le (List.length_filter_le _ _))
          rw [Option.some_inj] at hg
          rw [hg] at hH hChain hPass
          exact ⟨hH, hChain, hPass⟩
  | exhausted =>
      rw [ho] at hg
      cases hg

/-- C3 (corrected): whenever `find_path` returns `some path`, the
waypoints are the tile centres of a grid path whose consecutive tiles
are orthogonally or diagonally adjacent (Chebyshev distance 1), whose
first tile is the start tile, and all of whose tiles EXCEPT possibly
that first tile are passable at invocation time.  The claim's stronger
statement — that the first tile is passable too — is false: the source
never checks the start tile's passability
(`find_path_start_impassable_counterexample`). -/
theorem find_path_valid (sel : List PathNode → Nat) (start_pos end_pos : Vec2)
    (sm : StructureManager) (path : List Vec2)
    (hsome : find_path sel start_pos end_pos sm = some path) :
    ∃ gpath : List GridPos,
      path = gpath.map grid_to_tile_pos
      ∧ gpath.head? = some (tile_pos_to_rounded_tile start_pos)
      ∧ List.Chain' cheb_adjacent gpath
      ∧ ∀ x ∈ gpath, x ≠ tile_pos_to_rounded_tile start_pos →
          is_tile_passable x sm = true := by
  unfold find_path at hsome
  rw [Option.map_eq_some'] at hsome
  obtain ⟨gpath, hg, hmap⟩ := hsome
  obtain ⟨hH, hC, hP⟩ := find_path_run_result_spec sel start_pos end_pos sm gpath hg
  exact ⟨gpath, hmap.symm, hH, hC, hP⟩

theorem find_path_valid_witness :
    ∃ gpath : List GridPos,
      [grid_to_tile_pos ((0 : Int), (0 : Int))] = gpath.map grid_to_tile_pos
      ∧ gpath.head? = some (tile_pos_to_rounded_tile ⟨0, 0⟩)
      ∧ List.Chain' cheb_adjacent gpath
      ∧ ∀ x ∈ gpath, x ≠ tile_pos_to_rounded_tile ⟨0, 0⟩ →
          is_tile_passable x ⟨[]⟩ = true :=
  find_path_valid first_sel ⟨0, 0⟩ ⟨0, 0⟩ ⟨[]⟩
    [grid_to_tile_pos ((0 : Int), (0 : Int))]
    (by
      have h1 : tile_pos_to_rounded_tile (⟨0, 0⟩ : Vec2) = ((0 : Int), (0 : Int)) := by
        simp [tile_pos_to_rounded_tile]
      have h2 : (find_path_grid_run first_sel ((0 : Int), (0 : Int))
          ((0 : Int), (0 : Int)) ⟨[]⟩).result = some [((0 : Int), (0 : Int))] := by
        decide
      unfold find_path find_path_run
      rw [h1, h2]
      rfl)

/-- C3, counterexample to the claim as stated: with the single tile
(0,0) occupied by a structure (entity 7) and start = goal = tile
position (0,0), `find_path` returns the two-waypoint path
[(0.5, 0.5), (-0.5, -0.5)] whose FIRST waypoint lies on tile (0,0),
which is impassable — refuting "every tile in path is passable ...
including the first tile of the path". -/
theorem find_path_start_impassable_counterexample :
    find_path first_sel ⟨0, 0⟩ ⟨0, 0⟩ ⟨[(((0 : Int), (0 : Int)), 7)]⟩
      = some [⟨1 / 2, 1 / 2⟩, ⟨-1 / 2, -1 / 2⟩]
    ∧ tile_pos_to_rounded_tile ⟨1 / 2, 1 / 2⟩ = ((0 : Int), (0 : Int))
    ∧ is_tile_passable ((0 : Int), (0 : Int)) ⟨[(((0 : Int), (0 : Int)), 7)]⟩
        = false := by
  refine ⟨?_, ?_, by decide⟩
  · have h1 : tile_pos_to_rounded_tile (⟨0, 0⟩ : Vec2) = ((0 : Int), (0 : Int)) := by
      simp [tile_pos_to_rounded_tile]
    have h2 : (find_path_grid_run first_sel ((0 : Int), (0 : Int)) ((0 : Int), (0 : Int))
        ⟨[(((0 : Int), (0 : Int)), 7)]⟩).result
        = some [((0 : Int), (0 : Int)), ((-1 : Int), (-1 : Int))] := by
      decide
    unfold find_path find_path_run
    rw [h1, h2]
    norm_num [grid_to_tile_pos]
  · norm_num [tile_pos_to_rounded_tile]

/-- C5: every `find_path` invocation pops at most
`max_expansions start goal` nodes (`BASE_LIMIT` 500 plus
`round(euclidean_distance(start, effective_goal))` times
`PER_TILE_LIMIT` 40, capped at `MAX_LIMIT` 20000), and when this budget
is exceeded it does not fail: it returns `some` of the path
reconstructed to the recorded node with the smallest heuristic value —
the closest point to the goal among all nodes the search has recorded —
and that node's position is the returned path's final tile. -/
theorem find_path_budget_policy (sel : List PathNode → Nat) (start_pos end_pos : Vec2)
    (sm : StructureManager) :
    (find_path_run sel start_pos end_pos sm).processed
        ≤ max_expansions (tile_pos_to_rounded_tile start_pos)
            (actual_end_grid (tile_pos_to_rounded_tile start_pos)
              (tile_pos_to_rounded_tile end_pos) sm)
    ∧ (if (find_path_run sel start_pos end_pos sm).outcome
          = SearchOutcome.budgetExceeded
        then ∃ best : PathNode,
          min_by_hsq (find_path_run sel start_pos end_pos sm).all_nodes = some best
          ∧ (∀ p ∈ (find_path_run sel start_pos end_pos sm).all_nodes,
              best.h_sq ≤ p.2.h_sq)
          ∧ (find_path_run sel start_pos end_pos sm).result
              = some (reconstruct_path
                  (find_path_run sel start_pos end_pos sm).all_nodes
                  ((find_path_run sel start_pos end_pos sm).all_nodes.length + 1)
                  best.pos)
          ∧ (((find_path_run sel start_pos end_pos sm).result.getD []).getLast?
              = some best.pos)
        else True) := by
  simp only [find_path_run, find_path_grid_run]
  obtain ⟨hIN, hPLE, hFound⟩ := astar_loop_inv sm
    (actual_end_grid (tile_pos_to_rounded_tile start_pos)
      (tile_pos_to_rounded_tile end_pos) sm)
    (tile_pos_to_rounded_tile start_pos) sel
    (max_expansions (tile_pos_to_rounded_tile start_pos)
      (actual_end_grid (tile_pos_to_rounded_tile start_pos)
        (tile_pos_to_rounded_tile end_pos) sm))
    [⟨tile_pos_to_rounded_tile start_pos, 0,
      heuristic_sq (tile_pos_to_rounded_tile start_pos)
        (actual_end_grid (tile_pos_to_rounded_tile start_pos)
          (tile_pos_to_rounded_tile end_pos) sm), none⟩]
    [(tile_pos_to_rounded_tile start_pos,
      ⟨tile_pos_to_rounded_tile start_pos, 0,
        heuristic_sq (tile_pos_to_rounded_tile start_pos)
          (actual_end_grid (tile_pos_to_rounded_tile start_pos)
            (tile_pos_to_rounded_tile end_pos) sm), none⟩)]
    0 (init_NodesInv sm _ _) (init_OpenInv _ _)
  cases ho : (astar_loop sm
      (actual_end_grid (tile_pos_to_rounded_tile start_pos)
        (tile_pos_to_rounded_tile end_pos) sm) sel
      (max_expansions (tile_pos_to_rounded_tile start_pos)
        (actual_end_grid (tile_pos_to_rounded_tile start_pos)
          (tile_pos_to_rounded_tile end_pos) sm))
      [⟨tile_pos_to_rounded_tile start_pos, 0,
        heuristic_sq (tile_pos_to_rounded_tile start_pos)
          (actual_end_grid (tile_pos_to_rounded_tile start_pos)
            (tile_pos_to_rounded_tile end_pos) sm), none⟩]
      [(tile_pos_to_rounded_tile start_pos,
        ⟨tile_pos_to_rounded_tile start_pos, 0,
          heuristic_sq (tile_pos_to_rounded_tile start_pos)
            (actual_end_grid (tile_pos_to_rounded_tile start_pos)
              (tile_pos_to_rounded_tile end_pos) sm), none⟩)]
      0).1 with
  | found =>
      dsimp only
      exact ⟨by omega, by simp⟩
  | budgetExceeded =>
      cases hm : min_by_hsq (astar_loop sm
          (actual_end_grid (tile_pos_to_rounded_tile start_pos)
            (tile_pos_to_rounded_tile end_pos) sm) sel
          (max_expansions (tile_pos_to_rounded_tile start_pos)
            (actual_end_grid (tile_pos_to_rounded_tile start_pos)
              (tile_pos_to_rounded_tile end_pos) sm))
          [⟨tile_pos_to_rounded_tile start_pos, 0,
            heuristic_sq (tile_pos_to_rounded_tile start_pos)
              (actual_end_grid (tile_pos_to_rounded_tile start_pos)
                (tile_pos_to_rounded_tile end_pos) sm), none⟩]
          [(tile_pos_to_rounded_tile start_pos,
            ⟨tile_pos_to_rounded_tile start_pos, 0,
              heuristic_sq (tile_pos_to_rounded_tile start_pos)
                (actual_end_grid (tile_pos_to_rounded_tile start_pos)
                  (tile_pos_to_rounded_tile end_pos) sm), none⟩)]
          0).2.1 with
      | none =>
          exfalso
          obtain ⟨sn, hsn, _, _⟩ := hIN.2.2.1
          cases hnl : (astar_loop sm
              (actual_end_grid (tile_pos_to_rounded_tile start_pos)
                (tile_pos_to_rounded_tile end_pos) sm) sel
              (max_expansions (tile_pos_to_rounded_tile start_pos)
                (actual_end_grid (tile_pos_to_rounded_tile start_pos)
                  (tile_pos_to_rounded_tile end_pos) sm))
              [⟨tile_pos_to_rounded_tile start_pos, 0,
                heuristic_sq (tile_pos_to_rounded_tile start_pos)
                  (actual_end_grid (tile_pos_to_rounded_tile start_pos)
                    (tile_pos_to_rounded_tile end_pos) sm), none⟩]
              [(tile_pos_to_rounded_tile start_pos,
                ⟨tile_pos_to_rounded_tile start_pos, 0,
                  heuristic_sq (tile_pos_to_rounded_tile start_pos)
                    (actual_end_grid (tile_pos_to_rounded_tile start_pos)
                      (tile_pos_to_rounded_tile end_pos) sm), none⟩)]
              0).2.1 with
          | nil =>
              rw [hnl] at hsn
              simp [alGet] at hsn
          | cons q qs =>
              have hS := min_by_hsq_isSome q qs
              rw [← hnl, hm] at hS
              simp at hS
      | some best =>
          dsimp only
          obtain ⟨⟨p, hpmem, hpb⟩, hmin⟩ := min_by_hsq_spec _ _ hm
          have hINnd := hIN.1
          have hINpos := hIN.2.1
          have hbp : best.pos = p.1 := by
            rw [← hpb]
            exact hINpos p hpmem
          have hbm : (best.pos, best) ∈ (astar_loop sm
              (actual_end_grid (tile_pos_to_rounded_tile start_pos)
                (tile_pos_to_rounded_tile end_pos) sm) sel
              (max_expansions (tile_pos_to_rounded_tile start_pos)
                (actual_end_grid (tile_pos_to_rounded_tile start_pos)
                  (tile_pos_to_rounded_tile end_pos) sm))
              [⟨tile_pos_to_rounded_tile start_pos, 0,
                heuristic_sq (tile_pos_to_rounded_tile start_pos)
                  (actual_end_grid (tile_pos_to_rounded_tile start_pos)
                    (tile_pos_to_rounded_tile end_pos) sm), none⟩]
              [(tile_pos_to_rounded_tile start_pos,
                ⟨tile_pos_to_rounded_tile start_pos, 0,
                  heuristic_sq (tile_pos_to_rounded_tile start_pos)
                    (actual_end_grid (tile_pos_to_rounded_tile start_pos)
                      (tile_pos_to_rounded_tile end_pos) sm), none⟩)]
              0).2.1 := by
            rw [hbp, ← hpb]
            exact hpmem
          have hbget := alGet_of_mem_nodup _ _ _ hbm hINnd
          obtain ⟨hH, hL, hChain, hPass⟩ := reconstruct_path_spec sm _ _ hIN
            _ _ best hbget (Nat.lt_succ_of_le (List.length_filter_le _ _))
          refine ⟨by omega, ?_⟩
          rw [if_pos rfl]
          exact ⟨best, hm, hmin, rfl, hL⟩
  | exhausted =>
      dsimp only
      exact ⟨by omega, by simp⟩

theorem find_path_budget_policy_witness :
    (find_path_run first_sel ⟨0, 0⟩ ⟨0, 0⟩ ⟨[]⟩).processed
        ≤ max_expansions (tile_pos_to_rounded_tile ⟨0, 0⟩)
            (actual_end_grid (tile_pos_to_rounded_tile ⟨0, 0⟩)
              (tile_pos_to_rounded_tile ⟨0, 0⟩) ⟨[]⟩)
    ∧ (if (find_path_run first_sel ⟨0, 0⟩ ⟨0, 0⟩ ⟨[]⟩).outcome
          = SearchOutcome.budgetExceeded
        then ∃ best : PathNode,
          min_by_hsq (find_path_run first_sel ⟨0, 0⟩ ⟨0, 0⟩ ⟨[]⟩).all_nodes = some best
          ∧ (∀ p ∈ (find_path_run first_sel ⟨0, 0⟩ ⟨0, 0⟩ ⟨[]⟩).all_nodes,
              best.h_sq ≤ p.2.h_sq)
          ∧ (find_path_run first_sel ⟨0, 0⟩ ⟨0, 0⟩ ⟨[]⟩).result
              = some (reconstruct_path
                  (find_path_run first_sel ⟨0, 0⟩ ⟨0, 0⟩ ⟨[]⟩).all_nodes
                  ((find_path_run first_sel ⟨0, 0⟩ ⟨0, 0⟩ ⟨[]⟩).all_nodes.length + 1)
                  best.pos)
          ∧ (((find_path_run first_sel ⟨0, 0⟩ ⟨0, 0⟩ ⟨[]⟩).result.getD []).getLast?
              = some best.pos)
        else True) :=
  find_path_budget_policy first_sel ⟨0, 0⟩ ⟨0, 0⟩ ⟨[]⟩

end Overlord
